import Mathlib

/-!
# vgmjuice: chip-state reconstruction and note extraction

A shallow embedding of `src/vgmjuice.cpp` (GEMS Toolkit).  The C++ globals
(`time`, `channel`, `freq`, `tracks`, `instruments`, the DAC and PSG state)
are gathered in one `State` record that every function takes and returns.

Conventions of the embedding:

* C++ `int` values that are never negative (register bytes, frequencies,
  indices) are natural numbers; `time`, `sampleStart`, `sampleEnd` and
  `dacPos` are integers because the source stores `-1` in them or reads them
  from a signed word.  Arithmetic is taken without `int` overflow.
* Fixed-size C++ arrays (`channel[6]`, `freq[6]`, `tracks[10]`, `op[4]`, ...)
  are total functions from the index; the source only ever indexes them in
  range when `port` is `0` or `1`.
* `printf` diagnostics are not part of the state.  The `.wav` file written
  when the DAC is switched off is recorded as a `WavFile` value appended to
  `State.wavs`.
-/

namespace VgmJuice

/-! ## Data model -/

/-- Modelled from the spec: `RawFMOperator` is declared in `instruments.h`;
one raw register byte per operator register of the YM2612 (DT/MUL, TL, RS/AR,
AM/DR, SDR, SL/RR, SSG), named as `vgmjuice.cpp` uses them. -/
structure RawFMOperator where
  reg30 : Nat
  reg40 : Nat
  reg50 : Nat
  reg60 : Nat
  reg70 : Nat
  reg80 : Nat
  reg90 : Nat
deriving DecidableEq, Repr

/-- Modelled from the spec: `InstrumentConverter` is declared in
`instruments.h`; the channel registers `vgmjuice.cpp` reads and writes:
feedback/algorithm, stereo/sensitivity, LFO nibble, key-on mask,
channel-3-mode bits, the four channel-3 frequencies and the four operators. -/
structure InstrumentConverter where
  regB0 : Nat
  regB4 : Nat
  reg22 : Nat
  reg28 : Nat
  reg27 : Nat
  CH3_F : Nat → Nat
  op : Nat → RawFMOperator

/-- The `note` struct: `(time, on, freq, patch)`; the field `on` is named
`onFlag` here. -/
structure note where
  time : Int
  onFlag : Nat
  freq : Nat
  patch : Nat
deriving DecidableEq, Repr

/-- The `sample_NNN.wav` file written when the DAC is switched off: the
number in its name, the sample rate `sr` stored in its header and its payload.
`rate` is `none` where the conversion `int sr = samplerate` has no defined
value: when the source divides by zero (`sampleEnd == sampleStart`) and when the
quotient lies outside the range of a 32-bit `int`. -/
structure WavFile where
  index : Nat
  rate : Option Int
  data : List Nat
deriving DecidableEq, Repr

/-- The global variables of `vgmjuice.cpp` that `process` reads or writes, and
the list of `.wav` files written so far. -/
structure State where
  waitTime : Nat → Nat
  time : Int
  dacPos : Int
  dacOn : Bool
  channel : Nat → InstrumentConverter
  freq : Nat → Nat
  CH3_F : Nat → Nat
  tracks : Nat → List note
  lastInstrument : Nat → Nat
  sample : List Nat
  samplesCount : Nat
  sampleStart : Int
  sampleEnd : Int
  instruments : List InstrumentConverter
  LatchedRegister : Nat
  PSGFreq : Nat → Nat
  PSGVol : Nat → Nat
  PSGOn : Nat → Bool
  wavs : List WavFile

/-! ## Instrument canonicalisation (`getInstrumentId`) -/

/-- The loop `for (j=0; j<4; ++j) if (inst.CH3_F[j] != x.CH3_F[j]) break;`
started at `j`; the result is the value of `j` after the loop. -/
def ch3Loop (inst x : InstrumentConverter) : Nat → Nat → Nat
  | 0, j => j
  | fuel + 1, j =>
    if j < 4 then
      if inst.CH3_F j ≠ x.CH3_F j then j
      else ch3Loop inst x fuel (j + 1)
    else j

/-- The test `!(inst.reg28&(1<<(i+4)))` of both operator loops.  The source
shifts by the loop variable `i` of the enclosing instrument loop, not by the
operator index `j`.  The shift is taken exactly; in the source it stays within
`int` for `i < 27`. -/
def operatorOff (inst : InstrumentConverter) (i : Nat) : Bool :=
  inst.reg28 &&& (1 <<< (i + 4)) == 0

/-- The six comparisons `inst.op[j].regXX != x.op[j].regXX` joined by `||`. -/
def opDiffers (inst x : InstrumentConverter) (j : Nat) : Bool :=
  (inst.op j).reg30 != (x.op j).reg30
  || (inst.op j).reg50 != (x.op j).reg50
  || (inst.op j).reg60 != (x.op j).reg60
  || (inst.op j).reg70 != (x.op j).reg70
  || (inst.op j).reg80 != (x.op j).reg80
  || (inst.op j).reg90 != (x.op j).reg90

/-- The operator comparison loop (source lines 101-112) started at `j`; the
result is the value of `j` after the loop (`4` when no `break` was taken). -/
def opLoop (i : Nat) (inst x : InstrumentConverter) : Nat → Nat → Nat
  | 0, j => j
  | fuel + 1, j =>
    if j < 4 then
      if operatorOff inst i then opLoop i inst x fuel (j + 1)
      else if opDiffers inst x j then j
      else opLoop i inst x fuel (j + 1)
    else j

/-- The volume loop (source lines 118-124): the pair
`(volume_this, volume_new)` after the loop, started at `j` with the given
accumulators. -/
def volumeLoop (i : Nat) (inst x : InstrumentConverter) : Nat → Nat → Nat × Nat → Nat × Nat
  | 0, _, acc => acc
  | fuel + 1, j, acc =>
    if j < 4 then
      if operatorOff inst i then volumeLoop i inst x fuel (j + 1) acc
      else volumeLoop i inst x fuel (j + 1)
        (acc.1 + (0x7F - ((x.op j).reg40 &&& 0x7F)),
         acc.2 + (0x7F - ((inst.op j).reg40 &&& 0x7F)))
    else acc

/-- The copy loop `for (j=0; j<4; ++j) x.op[j].reg40 = inst.op[j].reg40;`
started at `j`. -/
def copyLoop (inst : InstrumentConverter) : Nat → Nat → InstrumentConverter → InstrumentConverter
  | 0, _, x => x
  | fuel + 1, j, x =>
    if j < 4 then
      copyLoop inst fuel (j + 1)
        { x with op := Function.update x.op j { (x.op j) with reg40 := (inst.op j).reg40 } }
    else x

/-- The tests of one iteration of the instrument loop that lead to
`continue` (source lines 88-114): `true` when entry `x` at index `i` is taken
as the same instrument as `inst`. -/
def sameInstrument (i : Nat) (inst x : InstrumentConverter) : Bool :=
  if inst.regB0 ≠ x.regB0 ∨ inst.regB4 ≠ x.regB4
      ∨ inst.reg28 ≠ x.reg28 ∨ inst.reg27 ≠ x.reg27 then false
  else if x.reg27 ≠ 0 ∧ ch3Loop inst x 4 0 ≠ 4 then false
  else if opLoop i inst x 4 0 ≠ 4 then false
  else true

/-- The tail of one iteration once the entry matched (source lines 116-129):
the entry `x` after "copy louder". -/
def copyLouder (i : Nat) (inst x : InstrumentConverter) : InstrumentConverter :=
  let v := volumeLoop i inst x 4 0 (0, 0)
  if v.2 > v.1 then copyLoop inst 4 0 x else x

/-- The instrument loop of `getInstrumentId` from index `i` over the entries
not yet visited: the returned index and those entries afterwards.  When the
entries are exhausted `i` is `instruments.size()`, so the source's
`push_back(inst); return instruments.size()-1;` returns `i`. -/
def getInstrumentIdFrom (inst : InstrumentConverter) :
    Nat → List InstrumentConverter → Nat × List InstrumentConverter
  | i, [] => (i, [inst])
  | i, x :: rest =>
    if sameInstrument i inst x then (i, copyLouder i inst x :: rest)
    else
      let r := getInstrumentIdFrom inst (i + 1) rest
      (r.1, x :: r.2)

/-- `getInstrumentId(inst)` on the instrument list `instruments`: the
returned index and the list afterwards. -/
def getInstrumentId (instruments : List InstrumentConverter) (inst : InstrumentConverter) :
    Nat × List InstrumentConverter :=
  getInstrumentIdFrom inst 0 instruments

/-! ## FM register writes (`ym2612write`) -/

/-- The assignment `op->regXX = val` with `op = &(channel[ch].op[s])`. -/
def setOp (st : State) (ch s : Nat) (f : RawFMOperator → RawFMOperator) : State :=
  let c := st.channel ch
  { st with channel := Function.update st.channel ch { c with op := Function.update c.op s (f (c.op s)) } }

/-- The assignment `channel[ch].reg28 = v`. -/
def setReg28 (st : State) (ch v : Nat) : State :=
  { st with channel := Function.update st.channel ch { (st.channel ch) with reg28 := v } }

/-- The statement `tracks[k].push_back(n)`. -/
def pushNote (st : State) (k : Nat) (n : note) : State :=
  { st with tracks := Function.update st.tracks k (st.tracks k ++ [n]) }

/-- Register `0x28` (source lines 232-264): key on/off. -/
def keyOnWrite (st : State) (val : Nat) : State :=
  let ch := val &&& 7
  if ch &&& 3 = 3 then st
  else
    let ch := if ch > 3 then ch - 1 else ch
    let st1 :=
      if ((st.channel ch).reg28 == 0) != ((val &&& 0xF0) == 0) then
        -- Key On was changed
        let st := setReg28 st ch (val &&& 0xF0)
        let patch := st.lastInstrument ch
        if val &&& 0xF0 ≠ 0 then
          let r := getInstrumentId st.instruments (st.channel ch)
          let st := { st with instruments := r.2,
                              lastInstrument := Function.update st.lastInstrument ch r.1 }
          pushNote st ch ⟨st.time, 1, st.freq ch, r.1⟩
        else
          pushNote st ch ⟨st.time, 0, st.freq ch, patch⟩
      else st
    setReg28 st1 ch (val &&& 0xF0)

/-- Register `0x2A` (source lines 265-270): one DAC sample byte.  `sample` is a
vector of `unsigned char`, so the value is stored modulo 256. -/
def dacDataWrite (st : State) (val : Nat) : State :=
  let st := { st with sample := st.sample ++ [val % 256] }
  let st := if st.sampleStart = -1 then { st with sampleStart := st.time } else st
  { st with sampleEnd := st.time }

/-- The value of `int sr = 44100.0*sample.size()/double(sampleEnd-sampleStart)`
(source lines 285-286): the quotient truncated towards zero.  The conversion of
a `double` to `int` is defined only when the truncated value fits a 32-bit
`int`, so there is no value when the divisor is zero (the quotient is infinite
or not a number) and none when the truncated quotient is outside
`-2^31 .. 2^31 - 1`.  The product is far below `2^53`, so the `double` quotient
truncates to the same integer as the exact one. -/
def sampleRate (size : Nat) (sampleStart sampleEnd : Int) : Option Int :=
  if sampleEnd - sampleStart = 0 then none
  else
    let sr := Int.tdiv (44100 * (size : Int)) (sampleEnd - sampleStart)
    if -2147483648 ≤ sr ∧ sr ≤ 2147483647 then some sr else none

/-- Register `0x2B` (source lines 271-303): DAC on/off. -/
def dacEnableWrite (st : State) (val : Nat) : State :=
  let newOn : Bool := val &&& 0x80 != 0
  let st1 :=
    if st.dacOn != newOn then
      if newOn then { st with sample := [], sampleStart := -1 }
      else
        { st with
            wavs := st.wavs ++
              [⟨st.samplesCount, sampleRate st.sample.length st.sampleStart st.sampleEnd,
                st.sample⟩],
            samplesCount := st.samplesCount + 1 }
    else st
  { st1 with dacOn := newOn }

/-- The statements after the inner `switch` of case `0xA0` (source lines
345-349): "always full update CH3". -/
def updateCH3 (st : State) : State :=
  let c := st.channel 2
  let f : Nat → Nat := fun k =>
    if k = 0 then st.CH3_F 1
    else if k = 1 then st.CH3_F 0
    else if k = 2 then st.CH3_F 2
    else if k = 3 then st.freq 2
    else c.CH3_F k
  { st with channel := Function.update st.channel 2 { c with CH3_F := f } }

/-- Case `0xA0` of `ym2612write` (source lines 327-350): frequency registers. -/
def freqWrite (st : State) (ch reg val : Nat) : State :=
  let st1 :=
    if reg &&& 0xC = 0 then
      let st := { st with freq := Function.update st.freq ch ((st.freq ch &&& 0xFF00) ||| val) }
      if (st.channel ch).reg28 ≠ 0 then
        pushNote st ch ⟨st.time, 1, st.freq ch, st.lastInstrument ch⟩
      else st
    else if reg &&& 0xC = 4 then
      { st with freq := Function.update st.freq ch ((st.freq ch &&& 0xFF) ||| (val <<< 8)) }
    else if reg &&& 0xC = 8 then
      let k := reg &&& 3
      { st with CH3_F := Function.update st.CH3_F k ((st.CH3_F k &&& 0xFF00) ||| val) }
    else
      let k := reg &&& 3
      { st with CH3_F := Function.update st.CH3_F k ((st.CH3_F k &&& 0xFF) ||| (val <<< 8)) }
  updateCH3 st1

/-- `ym2612write(port, reg, val)`. -/
def ym2612write (st : State) (port reg val : Nat) : State :=
  let ch := port * 3 + (reg &&& 3)
  let s := ((reg >>> 1) &&& 2) ||| ((reg >>> 3) &&& 1)
  if reg ≥ 0x30 ∧ reg &&& 3 = 3 then st
  else if reg &&& 0xF0 = 0x20 then
    if reg = 0x22 then
      { st with channel := fun i =>
          if i < 6 then { (st.channel i) with reg22 := val &&& 0xF } else st.channel i }
    else if reg = 0x27 then
      { st with channel := Function.update st.channel 2 { (st.channel 2) with reg27 := val &&& 0xC0 } }
    else if reg = 0x28 then keyOnWrite st val
    else if reg = 0x2A then dacDataWrite st val
    else if reg = 0x2B then dacEnableWrite st val
    else st
  else if reg &&& 0xF0 = 0x30 then setOp st ch s (fun o => { o with reg30 := val })
  else if reg &&& 0xF0 = 0x40 then setOp st ch s (fun o => { o with reg40 := val })
  else if reg &&& 0xF0 = 0x50 then setOp st ch s (fun o => { o with reg50 := val })
  else if reg &&& 0xF0 = 0x60 then setOp st ch s (fun o => { o with reg60 := val })
  else if reg &&& 0xF0 = 0x70 then setOp st ch s (fun o => { o with reg70 := val })
  else if reg &&& 0xF0 = 0x80 then setOp st ch s (fun o => { o with reg80 := val })
  else if reg &&& 0xF0 = 0x90 then setOp st ch s (fun o => { o with reg90 := val })
  else if reg &&& 0xF0 = 0xA0 then freqWrite st ch reg val
  else if reg &&& 0xF0 = 0xB0 then
    if reg &&& 0xC = 0 then
      { st with channel := Function.update st.channel ch { (st.channel ch) with regB0 := val } }
    else if reg &&& 0xC = 4 then
      { st with channel := Function.update st.channel ch { (st.channel ch) with regB4 := val } }
    else st
  else st

/-! ## FM note quantisation (`getNote`) -/

/-- The table `fmtbl` (13 entries, C to C). -/
def fmtbl : List Nat :=
  [644, 682, 723, 766, 811, 859, 910, 965, 1022, 1083, 1147, 1215, 1288]

/-- The expression `fmtbl[n]<<o` on `int`: no value when `n` is outside the
table, when the shift count is negative or not below 32, or when the result
does not fit a 32-bit `int`. -/
def fmShift (n : Int) (o : Int) : Option Int :=
  if 0 ≤ n ∧ 0 ≤ o ∧ o < 32 then
    match fmtbl[n.toNat]? with
    | some a => if a <<< o.toNat < 2 ^ 31 then some ((a <<< o.toNat : Nat) : Int) else none
    | none => none
  else none

/-- The loop `for (o=0; o<20; ++o) if ((fmtbl[n]<<o) > f) break;` with `n = 0`,
started at `o`; the result is the value of `o` after the loop. -/
def octaveLoop (f : Int) : Nat → Int → Option Int
  | 0, o => some o
  | fuel + 1, o =>
    if o < 20 then
      match fmShift 0 o with
      | some v => if v > f then some o else octaveLoop f fuel (o + 1)
      | none => none
    else some o

/-- The loop `for (n=0; n<12; ++n) if ((fmtbl[n]<<o) > f) break;` started at
`n`; the result is the value of `n` after the loop. -/
def semitoneLoop (f o : Int) : Nat → Int → Option Int
  | 0, n => some n
  | fuel + 1, n =>
    if n < 12 then
      match fmShift n o with
      | some v => if v > f then some n else semitoneLoop f o fuel (n + 1)
      | none => none
    else some n

/-- `getNote(freq)`; `none` when the source evaluates a shift or a table
access that has no defined value. -/
def getNote (freq : Nat) : Option Int := do
  let f : Int := (((freq &&& 0x7FF) <<< ((freq &&& 0x3800) >>> 11) : Nat) : Int)
  let o ← octaveLoop f 20 0
  let o := o - 1
  let n ← semitoneLoop f o 12 0
  let n := n - 1
  let o := if n < 0 then o - 1 else o
  let n := if n < 0 then 11 else n
  let n ←
    if o ≥ 0 then do
      let hi ← fmShift (n + 1) o
      let lo ← fmShift n o
      pure (if f * f > hi * lo then n + 1 else n)
    else pure n
  let o := if n = 12 then o + 1 else o
  let n := if n = 12 then 0 else n
  let n := n + o * 12
  let n := if n < 0 then 0 else n
  let n := if n ≥ 12 * 8 then 12 * 8 - 1 else n
  pure n

/-! ## PSG note quantisation (`getNotePSG`) -/

/-- The table `ftbl` of `double` note frequencies, as exact decimal fractions. -/
def ftbl : List ℚ :=
  [261.63, 277.18, 293.66, 311.13, 329.63, 349.23, 369.99, 392.00, 415.30, 440.00,
   466.16, 493.88, 523.25]

/-- The value `unsigned short f=floor(3579545.0/(2*16*ftbl[note]*pow(2.0,oct))+0.5)`.
The source evaluates the argument of `floor` in `double`; `err` is the
difference between that `double` value and the exact rational value of the
expression (`0` for exact arithmetic). -/
def psgDivider (err : ℚ) (note : Nat) (oct : Int) : Int :=
  ⌊(3579545 : ℚ) / (2 * 16 * ftbl.getD note 0 * (2 : ℚ) ^ oct) + 0.5 + err⌋ % 65536

/-- The loop of `getNotePSG` with `k` iterations left and the current values of
`oct`, `note`, `min` and `minnote`; the result is `minnote` after the loop.
`err note oct` is the rounding error of the `double` expression at that
position.  The variable `found` is written and never read, so it is left
out. -/
def psgLoop (err : Nat → Int → ℚ) (freq : Int) : Nat → Int → Nat → Int → Int → Int
  | 0, _, _, _, minnote => minnote
  | k + 1, oct, note, min, minnote =>
    let f := psgDivider (err note oct) note oct
    let min1 := if |f - freq| < min then |f - freq| else min
    let minnote1 := if |f - freq| < min then (oct + 4) * 12 + note else minnote
    if note + 1 = 12 then psgLoop err freq k (oct + 1) 0 min1 minnote1
    else psgLoop err freq k oct (note + 1) min1 minnote1

/-- `getNotePSG(freq)`, given the rounding errors of the `double` arithmetic. -/
def getNotePSG (err : Nat → Int → ℚ) (freq : Int) : Int :=
  psgLoop err freq 64 (-2) 9 100000 (-1)

/-! ## PSG register writes (`sn76489write`) -/

/-- `sn76489write(value)`. -/
def sn76489write (st : State) (value : Nat) : State :=
  let reg := if value &&& 0x80 ≠ 0 then (value >>> 4) &&& 7 else st.LatchedRegister
  let st := if value &&& 0x80 ≠ 0 then { st with LatchedRegister := reg } else st
  let ch := reg >>> 1
  if reg < 8 then
    if reg &&& 1 ≠ 0 then
      -- volume: 1,3,5,7
      let st := { st with PSGVol := Function.update st.PSGVol ch (value &&& 0xF) }
      if ((value &&& 0xF) != 0xF) != st.PSGOn ch then
        let st := { st with PSGOn := Function.update st.PSGOn ch ((value &&& 0xF) != 0xF) }
        pushNote st (ch + 6) ⟨st.time, if st.PSGOn ch then 1 else 0, st.PSGFreq ch, 0⟩
      else st
    else
      -- frequency: 0,2,4,6
      if value &&& 0x80 ≠ 0 ∨ ch = 6 then
        let v := (st.PSGFreq ch &&& 0x3f0) ||| (value &&& 0xf)
        { st with PSGFreq := Function.update st.PSGFreq ch v }
      else
        let v := (st.PSGFreq ch &&& 0x00f) ||| ((value &&& 0x3f) <<< 4)
        let st := { st with PSGFreq := Function.update st.PSGFreq ch v }
        if st.PSGOn ch then
          pushNote st (ch + 6) ⟨st.time, if st.PSGOn ch then 1 else 0, st.PSGFreq ch, 0⟩
        else st
  else st

/-! ## The command interpreter (`process`) -/

/-- Modelled from the spec: `vgmParser` is declared in `vgm_parser.h`; the
three accessors `process` calls on it.  A data block is the memory behind the
pointer `getDataBlock(i)` (`none` for a null pointer), read at a signed
offset. -/
structure vgmParser where
  getDataBlockCount : Nat
  getDataBlockType : Nat → Nat
  getDataBlock : Nat → Option (Int → Nat)

/-- Modelled from the spec: `GetWordLE` is declared in `vgm_parser.h`; the
16-bit little-endian word at the start of `args`. -/
def GetWordLE (args : List Nat) : Nat :=
  args.getD 0 0 + args.getD 1 0 * 256

/-- Modelled from the spec: `GetLongLE` is declared in `vgm_parser.h`; the
32-bit little-endian word at the start of `args`, as a signed `int`. -/
def GetLongLE (args : List Nat) : Int :=
  let v := args.getD 0 0 + args.getD 1 0 * 256 + args.getD 2 0 * 65536 + args.getD 3 0 * 16777216
  if v < 2 ^ 31 then (v : Int) else (v : Int) - 2 ^ 32

/-- The loop of the `0x8n` case (source lines 499-503) over the block indices
from `i`: the last block of type `0`, starting from the pointer `block`. -/
def findPcmBlock (parser : vgmParser) : Nat → Nat → Option (Int → Nat) → Option (Int → Nat)
  | 0, _, block => block
  | fuel + 1, i, block =>
    if i < parser.getDataBlockCount then
      findPcmBlock parser fuel (i + 1)
        (if parser.getDataBlockType i = 0 then parser.getDataBlock i else block)
    else block

/-- `process(parser, _, cmd, args)`: the returned `bool` and the state
afterwards.  `args` holds the operand bytes of the command. -/
def process (parser : vgmParser) (st : State) (cmd : Nat) (args : List Nat) : Bool × State :=
  if cmd = 0x4F then (false, st)
  else if cmd = 0x50 then (false, sn76489write st (args.getD 0 0))
  else if cmd = 0x52 ∨ cmd = 0x53 then
    (false, ym2612write st (cmd &&& 1) (args.getD 0 0) (args.getD 1 0))
  else if cmd = 0x61 then (false, { st with time := st.time + GetWordLE args })
  else if cmd = 0x62 ∨ cmd = 0x63 then
    (false, { st with time := st.time + st.waitTime (cmd - 0x62) })
  else if cmd = 0x64 then
    if args.getD 0 0 = 0x62 ∨ args.getD 0 0 = 0x63 then
      let w := GetWordLE (args.drop 1)
      (false, { st with waitTime := Function.update st.waitTime (args.getD 0 0 - 0x62) w })
    else (false, st)
  else if cmd = 0x66 then (false, st)
  else if cmd = 0xE0 then (false, { st with dacPos := GetLongLE args })
  else if cmd &&& 0xF0 = 0x70 then
    (false, { st with time := st.time + ((cmd &&& 0xF) + 1 : Nat) })
  else if cmd &&& 0xF0 = 0x80 then
    let block := findPcmBlock parser parser.getDataBlockCount 0 none
    let st :=
      match block with
      | some b => ym2612write st 0 0x2A (b st.dacPos)
      | none => st
    (false, { st with time := st.time + ((cmd &&& 0xF : Nat) : Int), dacPos := st.dacPos + 1 })
  else (false, st)

/-- The commands of a stream fed to `process` one after another. -/
def run (parser : vgmParser) (st : State) (cmds : List (Nat × List Nat)) : State :=
  cmds.foldl (fun s c => (process parser s c.1 c.2).2) st

/-- The zero operator. -/
def zeroOperator : RawFMOperator := ⟨0, 0, 0, 0, 0, 0, 0⟩

/-- The zero channel: every register zero. -/
def zeroChannel : InstrumentConverter :=
  { regB0 := 0, regB4 := 0, reg22 := 0, reg28 := 0, reg27 := 0,
    CH3_F := fun _ => 0, op := fun _ => zeroOperator }

/-- The state at program start: the initialisers of the globals (source lines
57-80 and 411-415), every global without one being zero. -/
def initialState : State :=
  { waitTime := fun k => if k = 0 then 735 else 882,
    time := 0, dacPos := 0, dacOn := false,
    channel := fun _ => zeroChannel, freq := fun _ => 0, CH3_F := fun _ => 0,
    tracks := fun _ => [], lastInstrument := fun _ => 0,
    sample := [], samplesCount := 0, sampleStart := 0, sampleEnd := 0,
    instruments := [],
    LatchedRegister := 0, PSGFreq := fun _ => 0, PSGVol := fun _ => 0,
    PSGOn := fun _ => false,
    wavs := [] }

/-! ## Auxiliary definitions used in the statements -/

/-- Two channel snapshots that agree on everything except the operator
attenuation bytes `reg40`. -/
def sameButTL (x y : InstrumentConverter) : Prop :=
  x.regB0 = y.regB0 ∧ x.regB4 = y.regB4 ∧ x.reg22 = y.reg22 ∧ x.reg28 = y.reg28
  ∧ x.reg27 = y.reg27 ∧ x.CH3_F = y.CH3_F
  ∧ ∀ k, (x.op k).reg30 = (y.op k).reg30 ∧ (x.op k).reg50 = (y.op k).reg50
      ∧ (x.op k).reg60 = (y.op k).reg60 ∧ (x.op k).reg70 = (y.op k).reg70
      ∧ (x.op k).reg80 = (y.op k).reg80 ∧ (x.op k).reg90 = (y.op k).reg90

/-- Snapshot `A` with the attenuation byte `reg40` of operator `j` replaced by `b`. -/
def withTL (A : InstrumentConverter) (j b : Nat) : InstrumentConverter :=
  { A with op := Function.update A.op j { (A.op j) with reg40 := b } }

/-- A snapshot with only operator 0 keyed on (mask `0x10`) and the given
attenuation byte for operator 0; every other register is zero. -/
def snapshotOp0 (tl : Nat) : InstrumentConverter :=
  withTL { zeroChannel with reg28 := 0x10 } 0 tl

/-- A snapshot with only operator 1 keyed on (mask `0x20`) and the given
DT/MUL byte for operator 1; every other register is zero. -/
def snapshotOp1 (dtmul : Nat) : InstrumentConverter :=
  { zeroChannel with
    reg28 := 0x20,
    op := Function.update zeroChannel.op 1 { zeroOperator with reg30 := dtmul } }

/-- A zero snapshot with the given key-on mask. -/
def snapshotMask (m : Nat) : InstrumentConverter :=
  { zeroChannel with reg28 := m }

/-- The channel a key-on write addresses (source lines 233-241): `val&7`, minus
one above 3. -/
def keyOnChannel (val : Nat) : Nat :=
  if val &&& 7 > 3 then (val &&& 7) - 1 else val &&& 7

/-- Number of writes in `vals` at which a key-on mask, starting at `mask`,
changes between zero and nonzero; each write stores `val & 0xF0`. -/
def maskTransitions : Nat → List Nat → Nat
  | _, [] => 0
  | mask, val :: vals =>
    (if (mask = 0) ↔ (val &&& 0xF0 = 0) then 0 else 1) + maskTransitions (val &&& 0xF0) vals

/-- A sequence of `(port, val)` writes to register `0x28`. -/
def keyOnWrites (st : State) (ws : List (Nat × Nat)) : State :=
  ws.foldl (fun s w => ym2612write s w.1 0x28 w.2) st

/-- The initial state with the raw frequency of FM channel 0 set to `F`. -/
def startWithFreq (F : Nat) : State :=
  { initialState with freq := Function.update initialState.freq 0 F }

/-- The operand bytes of a 16-bit wait of `t` ticks (low byte first). -/
def waitArgs (t : Nat) : List Nat := [t % 256, t / 256]

/-- The raw block/fnum encoding of note `n`: `fnum = fmtbl[n%12]`, `block = n/12`
(the frequency `fmtbl[note%12]<<(note/12)` that `getPitch` compares with). -/
def noteFrequency (n : Nat) : Nat :=
  fmtbl.getD (n % 12) 0 ||| ((n / 12) <<< 11)

/-- The dividers of the 64 semitone positions of `getNotePSG`, A2 upwards. -/
def psgTable : List Int :=
  [1017, 960, 906, 855, 807, 762, 719, 679, 641, 605, 571, 539, 508, 480, 453, 428, 404, 381,
   360, 339, 320, 302, 285, 269, 254, 240, 226, 214, 202, 190, 180, 170, 160, 151, 143, 135,
   127, 120, 113, 107, 101, 95, 90, 85, 80, 76, 71, 67, 64, 60, 57, 53, 50, 48, 45, 42, 40,
   38, 36, 34, 32, 30, 28, 27]

/-- The search of `getNotePSG` over a list of dividers, the first one at
position `i` (note index `33 + i`). -/
def psgScan (freq : Int) : List Int → Nat → Int → Int → Int
  | [], _, _, minnote => minnote
  | f :: rest, i, min, minnote =>
    if |f - freq| < min then psgScan freq rest (i + 1) |f - freq| (33 + i)
    else psgScan freq rest (i + 1) min minnote

/-- One step of a DAC recording: one of the wait commands (`0x61` with a
16-bit tick count, `0x62`, `0x63`, `0x7n`) or one of the commands that write
the DAC data register `0x2A`: byte `b` through port 0 (`0x52 0x2A b`) or
through port 1 (`0x53 0x2A b`), or the command `0x8n`, which writes the byte of
the PCM data block at `dacPos` and then waits `n` ticks. -/
inductive DacStep where
  | wait (t : Nat)
  | waitNTSC
  | waitPAL
  | waitShort (n : Nat)
  | data (b : Nat)
  | dataPort1 (b : Nat)
  | pcm (n : Nat)
deriving DecidableEq, Repr

/-- A step whose operands fit the command: a 16-bit wait below `2^16` ticks, a
short wait `0x7n` or a PCM write `0x8n` with `n` below 16, a data byte below
`2^8`. -/
def DacStep.wellFormed : DacStep → Bool
  | DacStep.wait t => decide (t < 65536)
  | DacStep.waitNTSC => true
  | DacStep.waitPAL => true
  | DacStep.waitShort n => decide (n < 16)
  | DacStep.data b => decide (b < 256)
  | DacStep.dataPort1 b => decide (b < 256)
  | DacStep.pcm n => decide (n < 16)

/-- The command `process` receives for a step: `0x61 lo hi`, `0x62`, `0x63`,
`0x7n`, `0x52 0x2A b`, `0x53 0x2A b` or `0x8n`. -/
def dacCommand : DacStep → Nat × List Nat
  | DacStep.wait t => (0x61, waitArgs t)
  | DacStep.waitNTSC => (0x62, [])
  | DacStep.waitPAL => (0x63, [])
  | DacStep.waitShort n => (0x70 + n, [])
  | DacStep.data b => (0x52, [0x2A, b])
  | DacStep.dataPort1 b => (0x53, [0x2A, b])
  | DacStep.pcm n => (0x80 + n, [])

/-- The data bytes of a step list with the tick at which each is written, the
time accumulator being `T` and `dacPos` being `pos` before the first step, `w`
being the two wait lengths `waitTime` and `block` the PCM data block that the
command `0x8n` reads (none when the file has no such block: the command then
writes nothing). -/
def dacTrace (block : Option (Int → Nat)) (w : Nat → Nat) :
    Int → Int → List DacStep → List (Int × Nat)
  | _, _, [] => []
  | T, pos, DacStep.wait t :: rest => dacTrace block w (T + t) pos rest
  | T, pos, DacStep.waitNTSC :: rest => dacTrace block w (T + w 0) pos rest
  | T, pos, DacStep.waitPAL :: rest => dacTrace block w (T + w 1) pos rest
  | T, pos, DacStep.waitShort n :: rest => dacTrace block w (T + (n + 1 : Nat)) pos rest
  | T, pos, DacStep.data b :: rest => (T, b) :: dacTrace block w T pos rest
  | T, pos, DacStep.dataPort1 b :: rest => (T, b) :: dacTrace block w T pos rest
  | T, pos, DacStep.pcm n :: rest =>
    match block with
    | some blk => (T, blk pos % 256) :: dacTrace block w (T + n) (pos + 1) rest
    | none => dacTrace block w (T + n) (pos + 1) rest

/-- The PCM data block that the command `0x8n` reads (source lines 499-503). -/
def pcmBlock (p : vgmParser) : Option (Int → Nat) :=
  findPcmBlock p p.getDataBlockCount 0 none

/-- A whole DAC recording: enable (`0x2B von`), the steps, disable (`0x2B voff`). -/
def dacRecording (von voff : Nat) (steps : List DacStep) : List (Nat × List Nat) :=
  (0x52, [0x2B, von]) :: (steps.map dacCommand ++ [(0x52, [0x2B, voff])])

/-- A parser without data blocks. -/
def noBlocks : vgmParser := ⟨0, fun _ => 0, fun _ => none⟩

/-- A parser with one data block, of type `0` (YM2612 PCM data), every byte of
which is 30. -/
def onePcmBlock : vgmParser := ⟨1, fun _ => 0, fun _ => some (fun _ => 30)⟩

/-- The four PSG bytes of the on/off scenario for channel 0 and divider `D`:
volume `0x0`, frequency latch (low nibble), frequency data (high six bits),
volume `0xF`. -/
def psgOnOffBytes (D : Nat) : List Nat :=
  [0x90, 0x80 ||| (D &&& 0xF), (D >>> 4) &&& 0x3F, 0x9F]

/-- A list of bytes fed to `sn76489write` one after another. -/
def psgWrites (st : State) (bytes : List Nat) : State :=
  bytes.foldl sn76489write st

/-- The summed loudness of an entry: `0x7F - (reg40 & 0x7F)` over its four
operators. -/
def loudness (x : InstrumentConverter) : Nat :=
  (0x7F - ((x.op 0).reg40 &&& 0x7F)) + (0x7F - ((x.op 1).reg40 &&& 0x7F))
    + (0x7F - ((x.op 2).reg40 &&& 0x7F)) + (0x7F - ((x.op 3).reg40 &&& 0x7F))

/-- Entry `x` with the attenuation bytes `reg40` of its four operators replaced
by those of `s`. -/
def withAttenuationsOf (x s : InstrumentConverter) : InstrumentConverter :=
  { x with op := fun j => if j < 4 then { (x.op j) with reg40 := (s.op j).reg40 } else x.op j }

/-- The opcodes `process` recognises: `0x4F`, `0x50`, `0x52`, `0x53`,
`0x61`..`0x64`, `0x66`, `0xE0` and `0x70`..`0x8F`. -/
def recognisedCommand (cmd : Nat) : Bool :=
  cmd == 0x4F || cmd == 0x50 || cmd == 0x52 || cmd == 0x53 || cmd == 0x61 || cmd == 0x62
  || cmd == 0x63 || cmd == 0x64 || cmd == 0x66 || cmd == 0xE0
  || (decide (0x70 ≤ cmd) && decide (cmd ≤ 0x8F))

/-- The operator register selected by the high nibble `k = reg & 0xF0` of an
operator write (`0x30` DT/MUL, `0x40` TL, `0x50` RS/AR, `0x60` AM/DR, `0x70`
SDR, `0x80` SL/RR, `0x90` SSG). -/
def opReg (k : Nat) (o : RawFMOperator) : Nat :=
  if k = 0x30 then o.reg30
  else if k = 0x40 then o.reg40
  else if k = 0x50 then o.reg50
  else if k = 0x60 then o.reg60
  else if k = 0x70 then o.reg70
  else if k = 0x80 then o.reg80
  else if k = 0x90 then o.reg90
  else 0

/-- The operator after the write `op->regXX = val` selected by `k = reg & 0xF0`. -/
def writeOpReg (k val : Nat) (o : RawFMOperator) : RawFMOperator :=
  if k = 0x30 then { o with reg30 := val }
  else if k = 0x40 then { o with reg40 := val }
  else if k = 0x50 then { o with reg50 := val }
  else if k = 0x60 then { o with reg60 := val }
  else if k = 0x70 then { o with reg70 := val }
  else if k = 0x80 then { o with reg80 := val }
  else if k = 0x90 then { o with reg90 := val }
  else o

/-- The linear frequency `f = (freq&0x7FF)<<((freq&0x3800)>>11)` of a raw
block/fnum value. -/
def linearFrequency (raw : Nat) : Nat :=
  (raw &&& 0x7FF) <<< ((raw &&& 0x3800) >>> 11)

/-- The frequency of note `k`: `fmtbl[k%12]<<(k/12)`. -/
def noteValue (k : Nat) : Nat :=
  fmtbl.getD (k % 12) 0 <<< (k / 12)

/-- A step that keeps the time accumulator and appends to each timeline at most
one note stamped with the current time. -/
def appendsAtNow (st st' : State) : Prop :=
  st'.time = st.time
  ∧ ∀ k, st'.tracks k = st.tracks k
      ∨ ∃ n, st'.tracks k = st.tracks k ++ [n] ∧ n.time = st.time

/-- The timelines are in time order and no note is later than the time
accumulator. -/
def timelineInv (st : State) : Prop :=
  ∀ k, (st.tracks k).Pairwise (fun a b => a.time ≤ b.time) ∧ ∀ n ∈ st.tracks k, n.time ≤ st.time

/-- Every keyed-on channel has a valid last instrument, and every note of the
six FM timelines carries a valid instrument index. -/
def patchInv (st : State) : Prop :=
  (∀ ch, (st.channel ch).reg28 ≠ 0 → st.lastInstrument ch < st.instruments.length)
  ∧ ∀ k, k < 6 → ∀ n ∈ st.tracks k, n.patch < st.instruments.length

/-- The part of the state the note events depend on is untouched. -/
def sameEventView (st st' : State) : Prop :=
  st'.time = st.time ∧ st'.tracks = st.tracks ∧ st'.instruments = st.instruments
  ∧ st'.lastInstrument = st.lastInstrument
  ∧ ∀ ch, (st'.channel ch).reg28 = (st.channel ch).reg28

/-- Effect of a frequency write on the event view: time, instrument list, last
instruments and key-on masks are kept, and at most one glide event is appended,
for a keyed-on channel `ch`, carrying that channel's last instrument. -/
def glideView (st : State) (ch : Nat) (st' : State) : Prop :=
  st'.time = st.time
  ∧ st'.instruments = st.instruments
  ∧ st'.lastInstrument = st.lastInstrument
  ∧ (∀ c, (st'.channel c).reg28 = (st.channel c).reg28)
  ∧ (st'.tracks = st.tracks
      ∨ ((st.channel ch).reg28 ≠ 0
          ∧ ∃ f, st'.tracks
              = Function.update st.tracks ch
                  (st.tracks ch ++ [⟨st.time, 1, f, st.lastInstrument ch⟩])))

/-- What one command does to the state, as far as the events are concerned: a
chip write `mid` (or nothing), after which only the time accumulator may move
forward. -/
def commandStep (st mid st' : State) : Prop :=
  (mid = st ∨ (∃ v, mid = sn76489write st v)
    ∨ ∃ port reg val, mid = ym2612write st port reg val)
  ∧ st'.tracks = mid.tracks ∧ st'.instruments = mid.instruments
  ∧ st'.lastInstrument = mid.lastInstrument ∧ st'.channel = mid.channel
  ∧ mid.time ≤ st'.time

/-! ## Lemmas about `getInstrumentId` -/

theorem sameButTL_refl (x : InstrumentConverter) : sameButTL x x := by
  simp [sameButTL]

theorem copyLoop_sameButTL (inst : InstrumentConverter) :
    ∀ (fuel j : Nat) (x : InstrumentConverter), sameButTL (copyLoop inst fuel j x) x := by
  intro fuel
  induction fuel with
  | zero => intro j x; exact sameButTL_refl x
  | succ fuel ih =>
    intro j x
    unfold copyLoop
    split
    · have h := ih (j + 1)
        { x with op := Function.update x.op j { (x.op j) with reg40 := (inst.op j).reg40 } }
      obtain ⟨h1, h2, h3, h4, h5, h6, h7⟩ := h
      refine ⟨h1, h2, h3, h4, h5, h6, ?_⟩
      intro k
      have hk := h7 k
      by_cases hkj : k = j
      · subst hkj
        simpa using hk
      · simpa [Function.update_noteq hkj] using hk
    · exact sameButTL_refl x

theorem copyLouder_sameButTL (i : Nat) (inst x : InstrumentConverter) :
    sameButTL (copyLouder i inst x) x := by
  unfold copyLouder
  simp only
  split
  · exact copyLoop_sameButTL inst 4 0 x
  · exact sameButTL_refl x

theorem ch3Loop_congr (inst x y : InstrumentConverter) (h : x.CH3_F = y.CH3_F) :
    ∀ fuel j, ch3Loop inst x fuel j = ch3Loop inst y fuel j := by
  intro fuel
  induction fuel with
  | zero => intro j; rfl
  | succ fuel ih => intro j; simp [ch3Loop, h, ih]

theorem opDiffers_congr (inst x y : InstrumentConverter) (h : sameButTL x y) (j : Nat) :
    opDiffers inst x j = opDiffers inst y j := by
  obtain ⟨-, -, -, -, -, -, h7⟩ := h
  obtain ⟨a, b, c, d, e, f⟩ := h7 j
  simp [opDiffers, a, b, c, d, e, f]

theorem opLoop_congr (i : Nat) (inst x y : InstrumentConverter) (h : sameButTL x y) :
    ∀ fuel j, opLoop i inst x fuel j = opLoop i inst y fuel j := by
  intro fuel
  induction fuel with
  | zero => intro j; rfl
  | succ fuel ih => intro j; simp [opLoop, opDiffers_congr inst x y h, ih]

theorem sameInstrument_congr (i : Nat) (inst x y : InstrumentConverter) (h : sameButTL x y) :
    sameInstrument i inst x = sameInstrument i inst y := by
  have h' := h
  obtain ⟨h1, h2, -, h4, h5, h6, -⟩ := h'
  simp [sameInstrument, h1, h2, h4, h5, ch3Loop_congr inst x y h6, opLoop_congr i inst x y h]

theorem ch3Loop_self (x : InstrumentConverter) :
    ∀ fuel j, j + fuel = 4 → ch3Loop x x fuel j = 4 := by
  intro fuel
  induction fuel with
  | zero => intro j h; simpa [ch3Loop] using h
  | succ fuel ih =>
    intro j h
    have hj : j < 4 := by omega
    simp [ch3Loop, hj]
    exact ih (j + 1) (by omega)

theorem opDiffers_self (x : InstrumentConverter) (j : Nat) : opDiffers x x j = false := by
  simp [opDiffers]

theorem opLoop_of_same (i : Nat) (inst x : InstrumentConverter)
    (h : ∀ j, opDiffers inst x j = false) :
    ∀ fuel j, j + fuel = 4 → opLoop i inst x fuel j = 4 := by
  intro fuel
  induction fuel with
  | zero => intro j hj; simpa [opLoop] using hj
  | succ fuel ih =>
    intro j hj
    have hj4 : j < 4 := by omega
    simp [opLoop, hj4, h j, ih (j + 1) (by omega)]

theorem sameInstrument_self (i : Nat) (x : InstrumentConverter) :
    sameInstrument i x x = true := by
  simp [sameInstrument, ch3Loop_self x 4 0 rfl, opLoop_of_same i x x (opDiffers_self x) 4 0 rfl]

theorem sameInstrument_copyLouder (i : Nat) (inst x : InstrumentConverter) :
    sameInstrument i inst (copyLouder i inst x) = sameInstrument i inst x :=
  sameInstrument_congr i inst _ _ (copyLouder_sameButTL i inst x)

theorem getInstrumentIdFrom_twice (s : InstrumentConverter) :
    ∀ (L : List InstrumentConverter) (i : Nat),
      (getInstrumentIdFrom s i (getInstrumentIdFrom s i L).2).1 = (getInstrumentIdFrom s i L).1
      ∧ (getInstrumentIdFrom s i (getInstrumentIdFrom s i L).2).2.length
          = (getInstrumentIdFrom s i L).2.length := by
  intro L
  induction L with
  | nil =>
    intro i
    simp [getInstrumentIdFrom, sameInstrument_self]
  | cons x rest ih =>
    intro i
    by_cases hx : sameInstrument i s x = true
    · simp [getInstrumentIdFrom, hx, sameInstrument_copyLouder]
    · simp only [Bool.not_eq_true] at hx
      have h := ih (i + 1)
      simp [getInstrumentIdFrom, hx, h.1, h.2]

/-- C3: instrument canonicalisation is idempotent: feeding the same snapshot `s`
twice in a row returns the same index both times, and the second call leaves
the length of the instrument list unchanged. -/
theorem getInstrumentId_idempotent (L : List InstrumentConverter) (s : InstrumentConverter) :
    (getInstrumentId (getInstrumentId L s).2 s).1 = (getInstrumentId L s).1
    ∧ (getInstrumentId (getInstrumentId L s).2 s).2.length = (getInstrumentId L s).2.length :=
  getInstrumentIdFrom_twice s L 0

theorem copyLoop_reg40 (inst x : InstrumentConverter) (k : Nat) (hk : k < 4) :
    ((copyLoop inst 4 0 x).op k).reg40 = (inst.op k).reg40 := by
  interval_cases k <;> simp [copyLoop, Function.update]

theorem volumeLoop_on (i : Nat) (inst x : InstrumentConverter) (h : operatorOff inst i = false) :
    volumeLoop i inst x 4 0 (0, 0) =
      ((0x7F - ((x.op 0).reg40 &&& 0x7F)) + (0x7F - ((x.op 1).reg40 &&& 0x7F))
        + (0x7F - ((x.op 2).reg40 &&& 0x7F)) + (0x7F - ((x.op 3).reg40 &&& 0x7F)),
       (0x7F - ((inst.op 0).reg40 &&& 0x7F)) + (0x7F - ((inst.op 1).reg40 &&& 0x7F))
        + (0x7F - ((inst.op 2).reg40 &&& 0x7F)) + (0x7F - ((inst.op 3).reg40 &&& 0x7F))) := by
  simp [volumeLoop, h]

theorem sameInstrument_reg28 (i : Nat) (inst x : InstrumentConverter)
    (h : sameInstrument i inst x = true) : inst.reg28 = x.reg28 := by
  unfold sameInstrument at h
  by_contra hne
  simp [hne] at h

theorem withTL_sameButTL (A : InstrumentConverter) (j b : Nat) : sameButTL (withTL A j b) A := by
  refine ⟨rfl, rfl, rfl, rfl, rfl, rfl, ?_⟩
  intro k
  by_cases hk : k = j
  · subst hk; simp [withTL]
  · simp [withTL, Function.update_noteq hk]

theorem sameButTL_symm {x y : InstrumentConverter} (h : sameButTL x y) : sameButTL y x := by
  obtain ⟨h1, h2, h3, h4, h5, h6, h7⟩ := h
  refine ⟨h1.symm, h2.symm, h3.symm, h4.symm, h5.symm, h6.symm, ?_⟩
  intro k
  obtain ⟨a, b, c, d, e, f⟩ := h7 k
  exact ⟨a.symm, b.symm, c.symm, d.symm, e.symm, f.symm⟩

theorem sameInstrument_of_sameButTL (i : Nat) (x y : InstrumentConverter) (h : sameButTL x y) :
    sameInstrument i x y = true := by
  rw [sameInstrument_congr i x y x (sameButTL_symm h)]
  exact sameInstrument_self i x

theorem getInstrumentId_pair (A B : InstrumentConverter) (h : sameButTL B A) :
    getInstrumentId [] A = (0, [A])
    ∧ getInstrumentId (getInstrumentId [] A).2 B = (0, [copyLouder 0 B A]) := by
  simp [getInstrumentId, getInstrumentIdFrom, sameInstrument_of_sameButTL 0 B A h]

theorem copyLouder_masked (A B : InstrumentConverter) (j : Nat) (hj : j < 4)
    (h0 : operatorOff B 0 = false)
    (hothers : ∀ k, k ≠ j → (B.op k).reg40 = (A.op k).reg40) :
    ((copyLouder 0 B A).op j).reg40 &&& 0x7F
      = min ((A.op j).reg40 &&& 0x7F) ((B.op j).reg40 &&& 0x7F) := by
  unfold copyLouder
  simp only [volumeLoop_on 0 B A h0]
  have ha : (A.op j).reg40 &&& 0x7F ≤ 0x7F := Nat.and_le_right
  have hb : (B.op j).reg40 &&& 0x7F ≤ 0x7F := Nat.and_le_right
  have e0 : j ≠ 0 → (B.op 0).reg40 = (A.op 0).reg40 := fun h => hothers 0 (Ne.symm h)
  have e1 : j ≠ 1 → (B.op 1).reg40 = (A.op 1).reg40 := fun h => hothers 1 (Ne.symm h)
  have e2 : j ≠ 2 → (B.op 2).reg40 = (A.op 2).reg40 := fun h => hothers 2 (Ne.symm h)
  have e3 : j ≠ 3 → (B.op 3).reg40 = (A.op 3).reg40 := fun h => hothers 3 (Ne.symm h)
  split
  · rename_i hgt
    rw [copyLoop_reg40 B A j hj]
    interval_cases j
    · rw [e1 (by decide), e2 (by decide), e3 (by decide)] at hgt
      omega
    · rw [e0 (by decide), e2 (by decide), e3 (by decide)] at hgt
      omega
    · rw [e0 (by decide), e1 (by decide), e3 (by decide)] at hgt
      omega
    · rw [e0 (by decide), e1 (by decide), e2 (by decide)] at hgt
      omega
  · rename_i hgt
    interval_cases j
    · rw [e1 (by decide), e2 (by decide), e3 (by decide)] at hgt
      omega
    · rw [e0 (by decide), e2 (by decide), e3 (by decide)] at hgt
      omega
    · rw [e0 (by decide), e1 (by decide), e3 (by decide)] at hgt
      omega
    · rw [e0 (by decide), e1 (by decide), e2 (by decide)] at hgt
      omega

theorem copyLouder_reg28 (i : Nat) (inst x : InstrumentConverter) :
    (copyLouder i inst x).reg28 = x.reg28 :=
  (copyLouder_sameButTL i inst x).2.2.2.1

/-- The entry at the returned index carries the key-on mask of the snapshot. -/
theorem getInstrumentIdFrom_entry (s : InstrumentConverter) :
    ∀ (L : List InstrumentConverter) (i : Nat),
      i ≤ (getInstrumentIdFrom s i L).1
      ∧ ∃ y, (getInstrumentIdFrom s i L).2[(getInstrumentIdFrom s i L).1 - i]? = some y
          ∧ y.reg28 = s.reg28 := by
  intro L
  induction L with
  | nil => intro i; simp [getInstrumentIdFrom]
  | cons x rest ih =>
    intro i
    by_cases hx : sameInstrument i s x = true
    · simp [getInstrumentIdFrom, hx, copyLouder_reg28, (sameInstrument_reg28 i s x hx).symm]
    · simp only [Bool.not_eq_true] at hx
      obtain ⟨h1, y, h2, h3⟩ := ih (i + 1)
      simp only [getInstrumentIdFrom, hx]
      refine ⟨by simp; omega, y, ?_, h3⟩
      have e : (getInstrumentIdFrom s (i + 1) rest).1 - i
          = ((getInstrumentIdFrom s (i + 1) rest).1 - (i + 1)) + 1 := by omega
      simp only [Bool.false_eq_true, if_false]
      rw [e, List.getElem?_cons_succ]
      exact h2

/-- When the returned index points into the old list, the old entry there
passed the key-on comparison. -/
theorem getInstrumentIdFrom_found (s : InstrumentConverter) :
    ∀ (L : List InstrumentConverter) (i : Nat),
      (getInstrumentIdFrom s i L).1 - i < L.length →
      ∃ x, L[(getInstrumentIdFrom s i L).1 - i]? = some x ∧ s.reg28 = x.reg28 := by
  intro L
  induction L with
  | nil => intro i h; simp at h
  | cons x rest ih =>
    intro i
    by_cases hx : sameInstrument i s x = true
    · intro _
      simp [getInstrumentIdFrom, hx, sameInstrument_reg28 i s x hx]
    · simp only [Bool.not_eq_true] at hx
      have hle := (getInstrumentIdFrom_entry s rest (i + 1)).1
      simp only [getInstrumentIdFrom, hx, Bool.false_eq_true, if_false]
      intro h
      have e : (getInstrumentIdFrom s (i + 1) rest).1 - i
          = ((getInstrumentIdFrom s (i + 1) rest).1 - (i + 1)) + 1 := by omega
      rw [e] at h ⊢
      rw [List.getElem?_cons_succ]
      exact ih (i + 1) (by simpa using h)

theorem snapshot_eta (A : InstrumentConverter) :
    ({ A with reg28 := A.reg28 } : InstrumentConverter) = A := by
  cases A; rfl

/-- C6 (amended): key-on bits are part of instrument identity.  For snapshots
`A` and `B` identical except for the key-on mask (`B` is `A` with mask `m`),
feeding `A` and then `B` returns the same index twice without a new entry
exactly when the two masks are equal. -/
theorem keyOn_part_of_identity (L : List InstrumentConverter) (A : InstrumentConverter) (m : Nat) :
    ((getInstrumentId (getInstrumentId L A).2 { A with reg28 := m }).1 = (getInstrumentId L A).1
      ∧ (getInstrumentId (getInstrumentId L A).2 { A with reg28 := m }).2.length
          = (getInstrumentId L A).2.length)
    ↔ m = A.reg28 := by
  constructor
  · rintro ⟨hidx, -⟩
    obtain ⟨-, y, hy, hy28⟩ := getInstrumentIdFrom_entry A L 0
    have hlt : (getInstrumentIdFrom A 0 L).1 - 0 < (getInstrumentIdFrom A 0 L).2.length := by
      by_contra hge
      rw [List.getElem?_eq_none (by omega)] at hy
      exact Option.noConfusion hy
    unfold getInstrumentId at hidx
    obtain ⟨x, hx, hx28⟩ := getInstrumentIdFrom_found { A with reg28 := m }
      (getInstrumentIdFrom A 0 L).2 0 (by rw [hidx]; exact hlt)
    rw [hidx, hy] at hx
    have hxy : y = x := Option.some.inj hx
    subst hxy
    rw [hy28] at hx28
    exact hx28
  · intro h
    subst h
    rw [snapshot_eta]
    exact getInstrumentIdFrom_twice A L 0

/-! ## Claims about `getInstrumentId` -/

/-- C5: the code at a failing input.  The list holds one entry whose only active
operator is operator 1 (mask `0x20`); the snapshot differs from it in the DT/MUL
byte `reg30` of that active operator, and `getInstrumentId` still returns the
existing index `0` without growing the list, because the operator test of entry
`i = 0` reads bit `i+4 = 4` of the mask. -/
theorem getInstrumentId_merges_distinct_timbres : (getInstrumentId [snapshotOp1 0x01] (snapshotOp1 0x71)).1 = 0
    ∧ (getInstrumentId [snapshotOp1 0x01] (snapshotOp1 0x71)).2.length = 1
    ∧ (snapshotOp1 0x71).reg28 &&& (1 <<< (1 + 4)) ≠ 0
    ∧ ((snapshotOp1 0x71).op 1).reg30 ≠ ((snapshotOp1 0x01).op 1).reg30 := by
  decide

/-- C4, counterexample: operator 0 is active, snapshot `A` has attenuation byte
`0x90` and `B` has `0x10`; after feeding `A` then `B` the single entry still
stores `0x90`, not the lower value `0x10` (the source compares `reg40 & 0x7F`,
and both are `0x10` there). -/
theorem louder_copy_counterexample :
    (snapshotOp0 0x90).reg28 &&& (1 <<< (0 + 4)) ≠ 0
    ∧ (getInstrumentId (getInstrumentId [] (snapshotOp0 0x90)).2
          (withTL (snapshotOp0 0x90) 0 0x10)).2.map (fun y => (y.op 0).reg40) = [0x90]
    ∧ min ((snapshotOp0 0x90).op 0).reg40 ((withTL (snapshotOp0 0x90) 0 0x10).op 0).reg40 = 0x10 := by
  decide

/-- C6, counterexample: two zero snapshots that differ only in their nonzero
key-on masks (`0x10` and `0x20`) get the indices `0` and `1`, and the second
call grows the list to two entries. -/
theorem keyOn_excluded_counterexample :
    (getInstrumentId [] (snapshotMask 0x10)).1 = 0
    ∧ (getInstrumentId (getInstrumentId [] (snapshotMask 0x10)).2 (snapshotMask 0x20)).1 = 1
    ∧ (getInstrumentId (getInstrumentId [] (snapshotMask 0x10)).2 (snapshotMask 0x20)).2.length = 2 := by
  decide

/-- C4 (amended): `A` and `B = withTL A j b` are identical except for the
attenuation byte of operator `j`, which is active, and operator 0 is active as
well.  Fed to `getInstrumentId` from the empty list in either order, both calls
return index `0`, the list ends with a single entry, and the 7-bit attenuation
`reg40 & 0x7F` stored for operator `j` is the lower of the two. -/
theorem louder_copy_kept (A : InstrumentConverter) (j b : Nat) (hj : j < 4)
    (_hact : A.reg28 &&& (1 <<< (j + 4)) ≠ 0) (h0 : A.reg28 &&& (1 <<< 4) ≠ 0) :
    ((getInstrumentId [] A).1 = 0
      ∧ (getInstrumentId (getInstrumentId [] A).2 (withTL A j b)).1 = 0
      ∧ ∃ y, (getInstrumentId (getInstrumentId [] A).2 (withTL A j b)).2 = [y]
          ∧ (y.op j).reg40 &&& 0x7F = min ((A.op j).reg40 &&& 0x7F) (b &&& 0x7F))
    ∧ ((getInstrumentId [] (withTL A j b)).1 = 0
      ∧ (getInstrumentId (getInstrumentId [] (withTL A j b)).2 A).1 = 0
      ∧ ∃ y, (getInstrumentId (getInstrumentId [] (withTL A j b)).2 A).2 = [y]
          ∧ (y.op j).reg40 &&& 0x7F = min ((A.op j).reg40 &&& 0x7F) (b &&& 0x7F)) := by
  have hAB : sameButTL (withTL A j b) A := withTL_sameButTL A j b
  have hoffA : operatorOff A 0 = false := by simpa [operatorOff] using h0
  have hoffB : operatorOff (withTL A j b) 0 = false := by simpa [operatorOff, withTL] using h0
  have hBj : ((withTL A j b).op j).reg40 = b := by simp [withTL]
  have hoth : ∀ k, k ≠ j → ((withTL A j b).op k).reg40 = (A.op k).reg40 := by
    intro k hk; simp [withTL, Function.update_noteq hk]
  obtain ⟨p1, p2⟩ := getInstrumentId_pair A (withTL A j b) hAB
  obtain ⟨q1, q2⟩ := getInstrumentId_pair (withTL A j b) A (sameButTL_symm hAB)
  refine ⟨⟨by rw [p1], by rw [p2], ⟨_, by rw [p2], ?_⟩⟩, ⟨by rw [q1], by rw [q2], ⟨_, by rw [q2], ?_⟩⟩⟩
  · rw [copyLouder_masked A (withTL A j b) j hj hoffB hoth, hBj]
  · rw [copyLouder_masked (withTL A j b) A j hj hoffA (fun k hk => (hoth k hk).symm), hBj,
      Nat.min_comm]

/-- Witness for C4: operator 0 with attenuation `0x20` in `A` and `0x10` in `B`. -/
theorem louder_copy_kept_witness :
    ((getInstrumentId [] (snapshotOp0 0x20)).1 = 0
      ∧ (getInstrumentId (getInstrumentId [] (snapshotOp0 0x20)).2
          (withTL (snapshotOp0 0x20) 0 0x10)).1 = 0
      ∧ ∃ y, (getInstrumentId (getInstrumentId [] (snapshotOp0 0x20)).2
            (withTL (snapshotOp0 0x20) 0 0x10)).2 = [y]
          ∧ (y.op 0).reg40 &&& 0x7F = min (((snapshotOp0 0x20).op 0).reg40 &&& 0x7F) (0x10 &&& 0x7F))
    ∧ ((getInstrumentId [] (withTL (snapshotOp0 0x20) 0 0x10)).1 = 0
      ∧ (getInstrumentId (getInstrumentId [] (withTL (snapshotOp0 0x20) 0 0x10)).2
          (snapshotOp0 0x20)).1 = 0
      ∧ ∃ y, (getInstrumentId (getInstrumentId [] (withTL (snapshotOp0 0x20) 0 0x10)).2
            (snapshotOp0 0x20)).2 = [y]
          ∧ (y.op 0).reg40 &&& 0x7F = min (((snapshotOp0 0x20).op 0).reg40 &&& 0x7F) (0x10 &&& 0x7F)) :=
  louder_copy_kept (snapshotOp0 0x20) 0 0x10 (by decide) (by decide) (by decide)


/-! ## Key-on events (`ym2612write`, register `0x28`) -/

theorem ym2612write_keyOn (st : State) (port val : Nat) :
    ym2612write st port 0x28 val = keyOnWrite st val := by
  have h1 : (0x28 &&& 0xF0 : Nat) = 0x20 := by decide
  simp [ym2612write, h1]

theorem keyOnWrite_step (st : State) (val c : Nat) (h3 : val &&& 3 ≠ 3)
    (hc : keyOnChannel val = c) :
    (keyOnWrite st val).tracks c
        = st.tracks c ++
          (if ((st.channel c).reg28 = 0) ↔ (val &&& 0xF0 = 0) then []
           else [⟨st.time, if val &&& 0xF0 ≠ 0 then 1 else 0, st.freq c,
                  if val &&& 0xF0 ≠ 0 then
                    (getInstrumentId st.instruments
                      { (st.channel c) with reg28 := val &&& 0xF0 }).1
                  else st.lastInstrument c⟩])
    ∧ ((keyOnWrite st val).channel c).reg28 = val &&& 0xF0 := by
  have h3' : (val &&& 7) &&& 3 ≠ 3 := by
    rw [Nat.and_assoc]; simpa using h3
  unfold keyOnChannel at hc
  unfold keyOnWrite
  simp only [h3', if_false, hc]
  by_cases hm : val &&& 0xF0 = 0 <;> by_cases hr : (st.channel c).reg28 = 0 <;>
    simp [hm, hr, setReg28, pushNote]

theorem keyOnWrites_count (c : Nat) :
    ∀ (ws : List (Nat × Nat)) (st : State),
      (∀ w ∈ ws, w.2 &&& 3 ≠ 3 ∧ keyOnChannel w.2 = c) →
      ((keyOnWrites st ws).tracks c).length
          = (st.tracks c).length + maskTransitions (st.channel c).reg28 (ws.map Prod.snd)
      ∧ st.tracks c <+: (keyOnWrites st ws).tracks c := by
  intro ws
  induction ws with
  | nil => intro st _; simp [keyOnWrites, maskTransitions]
  | cons w ws ih =>
    intro st h
    have hw := h w (List.mem_cons_self w ws)
    obtain ⟨e1, e2⟩ := keyOnWrite_step st w.2 c hw.1 hw.2
    obtain ⟨i1, i2⟩ := ih (ym2612write st w.1 0x28 w.2)
      (fun v hv => h v (List.mem_cons_of_mem w hv))
    have hfold : keyOnWrites st (w :: ws) = keyOnWrites (ym2612write st w.1 0x28 w.2) ws := rfl
    rw [hfold]
    rw [ym2612write_keyOn] at i1 i2 ⊢
    constructor
    · rw [i1, e1, e2]
      simp only [List.map_cons, maskTransitions, List.length_append]
      split <;> simp
      omega
    · refine List.IsPrefix.trans ?_ i2
      rw [e1]
      exact List.prefix_append _ _

/-- C1: for writes to the key-on register `0x28` that all address channel `c`,
the number of note-events appended to `tracks[c]` equals the number of writes
at which the stored key-on mask of `c` changes between zero and nonzero, the
events already there are kept in front, and a single write that keeps the mask
zero or keeps it nonzero appends nothing. -/
theorem keyOn_event_count (st : State) (c : Nat) (ws : List (Nat × Nat))
    (h : ∀ w ∈ ws, w.2 &&& 3 ≠ 3 ∧ keyOnChannel w.2 = c) :
    ((keyOnWrites st ws).tracks c).length
        = (st.tracks c).length + maskTransitions (st.channel c).reg28 (ws.map Prod.snd)
    ∧ st.tracks c <+: (keyOnWrites st ws).tracks c
    ∧ ∀ port val, val &&& 3 ≠ 3 → keyOnChannel val = c →
        (((st.channel c).reg28 = 0) ↔ (val &&& 0xF0 = 0)) →
        (ym2612write st port 0x28 val).tracks c = st.tracks c := by
  obtain ⟨h1, h2⟩ := keyOnWrites_count c ws st h
  refine ⟨h1, h2, ?_⟩
  intro port val h3 hc hsame
  rw [ym2612write_keyOn, (keyOnWrite_step st val c h3 hc).1]
  simp [hsame]

/-- Witness for C1: from the initial state, key-on (`0xF0`), a second key-on with
another nonzero mask (`0x30`) and key-off (`0x00`) on channel 0 append two
events. -/
theorem keyOn_event_count_witness :
    ((keyOnWrites initialState [(0, 0xF0), (0, 0x30), (0, 0x00)]).tracks 0).length
        = (initialState.tracks 0).length
          + maskTransitions (initialState.channel 0).reg28
              ([(0, 0xF0), (0, 0x30), (0, 0x00)].map Prod.snd)
    ∧ maskTransitions (initialState.channel 0).reg28
          ([(0, 0xF0), (0, 0x30), (0, 0x00)].map Prod.snd) = 2 :=
  ⟨(keyOn_event_count initialState 0 [(0, 0xF0), (0, 0x30), (0, 0x00)] (by decide)).1,
    by decide⟩

/-! ## End-to-end run through `process` -/

theorem GetWordLE_waitArgs (t : Nat) : GetWordLE (waitArgs t) = t := by
  simp [GetWordLE, waitArgs]; omega

set_option maxRecDepth 100000 in
theorem mask_facts (mask : Nat) (hm : mask &&& 0xF0 = mask) (h0 : mask ≠ 0) :
    mask &&& 7 = 0 ∧ mask &&& 0xF0 ≠ 0 := by
  have hle : mask ≤ 0xF0 := by rw [← hm]; exact Nat.and_le_right
  refine ⟨?_, by rw [hm]; exact h0⟩
  have : ∀ m, m ≤ 0xF0 → m &&& 0xF0 = m → m &&& 7 = 0 := by decide
  exact this mask hle hm

theorem process_wait (p : vgmParser) (st : State) (t : Nat) :
    (process p st 0x61 (waitArgs t)).2 = { st with time := st.time + t } := by
  simp [process, GetWordLE_waitArgs]

theorem process_keyOn (p : vgmParser) (st : State) (val : Nat) :
    (process p st 0x52 [0x28, val]).2 = keyOnWrite st val := by
  have h : (0x52 &&& 1 : Nat) = 0 := by decide
  simp [process, h, ym2612write_keyOn]

/-! ## PSG divider table -/

theorem floor_add_err (q e : ℚ) (D : Int) (he : |e| ≤ 1 / 256)
    (hlo : (D : ℚ) + 1 / 256 ≤ q) (hhi : q + 1 / 256 < D + 1) : ⌊q + e⌋ = D := by
  rw [Int.floor_eq_iff]
  have h := abs_le.mp he
  constructor <;> linarith [h.1, h.2]

theorem psgDivider_eq (e : ℚ) (he : |e| ≤ 1 / 256) (note : Nat) (oct D : Int)
    (hlo : (D : ℚ) + 1 / 256 ≤ (3579545 : ℚ) / (2 * 16 * ftbl.getD note 0 * (2 : ℚ) ^ oct) + 0.5)
    (hhi : (3579545 : ℚ) / (2 * 16 * ftbl.getD note 0 * (2 : ℚ) ^ oct) + 0.5 + 1 / 256 < D + 1)
    (h0 : 0 ≤ D) (h1 : D < 65536) :
    psgDivider e note oct = D := by
  unfold psgDivider
  rw [floor_add_err _ e D he hlo hhi]
  exact Int.emod_eq_of_lt h0 h1

set_option maxHeartbeats 4000000 in
theorem psgDivider_table (e : ℚ) (he : |e| ≤ 1 / 256) :
    ∀ i, i < 64 →
      psgDivider e ((9 + i) % 12) (-2 + (((9 + i) / 12 : Nat) : Int)) = psgTable.getD i 0 := by
  intro i hi
  interval_cases i <;>
    exact psgDivider_eq e he _ _ _ (by norm_num [ftbl, psgTable]) (by norm_num [ftbl, psgTable])
      (by norm_num [psgTable]) (by norm_num [psgTable])

theorem psgTable_drop (i : Nat) (hi : i < 64) :
    psgTable.drop i = psgTable.getD i 0 :: psgTable.drop (i + 1) := by
  have hlen : psgTable.length = 64 := rfl
  rw [List.drop_eq_getElem_cons (by omega)]
  congr 1
  rw [List.getD_eq_getElem?_getD, List.getElem?_eq_getElem (by omega)]
  rfl

theorem psgLoop_eq_scan (err : Nat → Int → ℚ) (herr : ∀ n o, |err n o| ≤ 1 / 256) (freq : Int) :
    ∀ (k i : Nat) (m mn : Int), i + k = 64 →
      psgLoop err freq k (-2 + (((9 + i) / 12 : Nat) : Int)) ((9 + i) % 12) m mn
        = psgScan freq (psgTable.drop i) i m mn := by
  intro k
  induction k with
  | zero =>
    intro i m mn h
    have hlen : psgTable.length = 64 := rfl
    rw [List.drop_of_length_le (by omega)]
    rfl
  | succ k ih =>
    intro i m mn h
    have hi : i < 64 := by omega
    rw [psgTable_drop i hi]
    unfold psgLoop psgScan
    simp only
    rw [psgDivider_table _ (herr _ _) i hi]
    have hidx : (-2 + (((9 + i) / 12 : Nat) : Int) + 4) * 12 + (((9 + i) % 12 : Nat) : Int)
        = 33 + (i : Int) := by omega
    rw [hidx]
    have ih' := ih (i + 1) 
    by_cases hw : (9 + i) % 12 + 1 = 12
    · have e1 : (9 + (i + 1)) % 12 = 0 := by omega
      have e2 : (((9 + (i + 1)) / 12 : Nat) : Int) = (((9 + i) / 12 : Nat) : Int) + 1 := by omega
      rw [e1, e2] at ih'
      simp only [hw, if_true]
      split
      · rw [← ih' _ _ (by omega)]; congr 1; omega
      · rw [← ih' _ _ (by omega)]; congr 1; omega
    · have e1 : (9 + (i + 1)) % 12 = (9 + i) % 12 + 1 := by omega
      have e2 : (((9 + (i + 1)) / 12 : Nat) : Int) = (((9 + i) / 12 : Nat) : Int) := by omega
      rw [e1, e2] at ih'
      simp only [hw, if_false]
      split
      · rw [← ih' _ _ (by omega)]
      · rw [← ih' _ _ (by omega)]

set_option maxRecDepth 1000000 in
theorem psgScan_table : ∀ i, i < 64 → psgScan (psgTable.getD i 0) psgTable 0 100000 (-1) = 33 + i := by
  decide

/-! ## DAC sample extraction -/

theorem process_dacData (p : vgmParser) (st : State) (b : Nat) :
    (process p st 0x52 [0x2A, b]).2 = dacDataWrite st b := by
  have h : (0x52 &&& 1 : Nat) = 0 := by decide
  have h1 : (0x2A &&& 0xF0 : Nat) = 0x20 := by decide
  simp [process, h, ym2612write, h1]

theorem process_dacEnable (p : vgmParser) (st : State) (v : Nat) :
    (process p st 0x52 [0x2B, v]).2 = dacEnableWrite st v := by
  have h : (0x52 &&& 1 : Nat) = 0 := by decide
  have h1 : (0x2B &&& 0xF0 : Nat) = 0x20 := by decide
  simp [process, h, ym2612write, h1]

theorem run_cons (p : vgmParser) (st : State) (c : Nat × List Nat) (cs : List (Nat × List Nat)) :
    run p st (c :: cs) = run p (process p st c.1 c.2).2 cs := rfl

theorem run_append (p : vgmParser) (st : State) (cs ds : List (Nat × List Nat)) :
    run p st (cs ++ ds) = run p (run p st cs) ds := by
  simp [run, List.foldl_append]

theorem dacDataWrite_eq (st : State) (b : Nat) :
    dacDataWrite st b
      = { st with
          sample := st.sample ++ [b % 256],
          sampleStart := if st.sampleStart = -1 then st.time else st.sampleStart,
          sampleEnd := st.time } := by
  unfold dacDataWrite
  by_cases h : st.sampleStart = -1 <;> simp [h]

theorem process_waitNTSC (p : vgmParser) (st : State) :
    (process p st 0x62 []).2 = { st with time := st.time + st.waitTime 0 } := by
  simp [process]

theorem process_waitPAL (p : vgmParser) (st : State) :
    (process p st 0x63 []).2 = { st with time := st.time + st.waitTime 1 } := by
  simp [process]

theorem process_waitShort (p : vgmParser) (st : State) (n : Nat) (hn : n < 16) :
    (process p st (0x70 + n) []).2 = { st with time := st.time + (n + 1 : Nat) } := by
  have h1 : (0x70 + n) &&& 0xF0 = 0x70 := by
    have : ∀ m, m < 16 → (0x70 + m) &&& 0xF0 = 0x70 := by decide
    exact this n hn
  have h2 : (0x70 + n) &&& 0xF = n := by
    have : ∀ m, m < 16 → (0x70 + m) &&& 0xF = m := by decide
    exact this n hn
  have e1 : 0x70 + n ≠ 0x4F := by omega
  have e2 : 0x70 + n ≠ 0x50 := by omega
  have e3 : 0x70 + n ≠ 0x52 := by omega
  have e4 : 0x70 + n ≠ 0x53 := by omega
  have e5 : 0x70 + n ≠ 0x61 := by omega
  have e6 : 0x70 + n ≠ 0x62 := by omega
  have e7 : 0x70 + n ≠ 0x63 := by omega
  have e8 : 0x70 + n ≠ 0x64 := by omega
  have e9 : 0x70 + n ≠ 0x66 := by omega
  have e10 : 0x70 + n ≠ 0xE0 := by omega
  simp only [process, e1, e2, e3, e4, e5, e6, e7, e8, e9, e10, h1, h2, if_false, if_true,
    or_self]

theorem process_dacDataPort1 (p : vgmParser) (st : State) (b : Nat) :
    (process p st 0x53 [0x2A, b]).2 = dacDataWrite st b := by
  have h : (0x53 &&& 1 : Nat) = 1 := by decide
  have h1 : (0x2A &&& 0xF0 : Nat) = 0x20 := by decide
  simp [process, h, ym2612write, h1]

theorem process_pcm (p : vgmParser) (st : State) (n : Nat) (hn : n < 16) :
    (process p st (0x80 + n) []).2
      = { (match pcmBlock p with
            | some blk => dacDataWrite st (blk st.dacPos)
            | none => st) with
          time := st.time + (n : Int), dacPos := st.dacPos + 1 } := by
  have h1 : (0x80 + n) &&& 0xF0 = 0x80 := by
    have : ∀ m, m < 16 → (0x80 + m) &&& 0xF0 = 0x80 := by decide
    exact this n hn
  have h2 : (0x80 + n) &&& 0xF = n := by
    have : ∀ m, m < 16 → (0x80 + m) &&& 0xF = m := by decide
    exact this n hn
  have e1 : 0x80 + n ≠ 0x4F := by omega
  have e2 : 0x80 + n ≠ 0x50 := by omega
  have e3 : 0x80 + n ≠ 0x52 := by omega
  have e4 : 0x80 + n ≠ 0x53 := by omega
  have e5 : 0x80 + n ≠ 0x61 := by omega
  have e6 : 0x80 + n ≠ 0x62 := by omega
  have e7 : 0x80 + n ≠ 0x63 := by omega
  have e8 : 0x80 + n ≠ 0x64 := by omega
  have e9 : 0x80 + n ≠ 0x66 := by omega
  have e10 : 0x80 + n ≠ 0xE0 := by omega
  have e11 : (0x80 : Nat) ≠ 0x70 := by decide
  simp only [process, e1, e2, e3, e4, e5, e6, e7, e8, e9, e10, e11, h1, h2, if_false, if_true,
    or_self, pcmBlock]
  cases findPcmBlock p p.getDataBlockCount 0 none with
  | none => rfl
  | some blk =>
    have h3 : (0x2A &&& 0xF0 : Nat) = 0x20 := by decide
    simp [ym2612write, h3, dacDataWrite_eq]

/-- The state after a list of DAC steps: the sample buffer, its start and end
ticks, and the fields the steps leave alone. -/
theorem run_dacSteps (p : vgmParser) :
    ∀ (steps : List DacStep) (st : State), 0 ≤ st.time →
      (∀ s ∈ steps, DacStep.wellFormed s = true) →
      (run p st (steps.map dacCommand)).sample
          = st.sample
            ++ (dacTrace (pcmBlock p) st.waitTime st.time st.dacPos steps).map Prod.snd
      ∧ (run p st (steps.map dacCommand)).sampleStart
          = (if st.sampleStart = -1 then
              (((dacTrace (pcmBlock p) st.waitTime st.time st.dacPos steps).map
                Prod.fst).head?).getD (-1)
             else st.sampleStart)
      ∧ (run p st (steps.map dacCommand)).sampleEnd
          = (((dacTrace (pcmBlock p) st.waitTime st.time st.dacPos steps).map
                Prod.fst).getLast?).getD st.sampleEnd
      ∧ (run p st (steps.map dacCommand)).dacOn = st.dacOn
      ∧ (run p st (steps.map dacCommand)).wavs = st.wavs
      ∧ (run p st (steps.map dacCommand)).samplesCount = st.samplesCount := by
  intro steps
  induction steps with
  | nil =>
    intro st _ _
    simp only [List.map_nil, run, List.foldl_nil, dacTrace, List.append_nil, List.head?_nil,
      List.getLast?_nil, Option.getD_none, true_and, and_true]
    split <;> simp_all
  | cons s rest ih =>
    intro st ht hb
    have hb' : ∀ s' ∈ rest, DacStep.wellFormed s' = true :=
      fun s' h => hb s' (List.mem_cons_of_mem s h)
    have hs := hb s (List.mem_cons_self _ _)
    have hdata : ∀ b : Nat, b % 256 = b →
        (run p (dacDataWrite st b) (rest.map dacCommand)).sample
            = st.sample
              ++ ((st.time, b)
                  :: dacTrace (pcmBlock p) st.waitTime st.time st.dacPos rest).map Prod.snd
        ∧ (run p (dacDataWrite st b) (rest.map dacCommand)).sampleStart
            = (if st.sampleStart = -1 then
                ((((st.time, b)
                  :: dacTrace (pcmBlock p) st.waitTime st.time st.dacPos rest).map
                  Prod.fst).head?).getD (-1)
               else st.sampleStart)
        ∧ (run p (dacDataWrite st b) (rest.map dacCommand)).sampleEnd
            = ((((st.time, b)
                  :: dacTrace (pcmBlock p) st.waitTime st.time st.dacPos rest).map
                  Prod.fst).getLast?).getD st.sampleEnd
        ∧ (run p (dacDataWrite st b) (rest.map dacCommand)).dacOn = st.dacOn
        ∧ (run p (dacDataWrite st b) (rest.map dacCommand)).wavs = st.wavs
        ∧ (run p (dacDataWrite st b) (rest.map dacCommand)).samplesCount
            = st.samplesCount := by
      intro b hb256
      obtain ⟨i1, i2, i3, i4, i5, i6⟩ :=
        ih (dacDataWrite st b) (by simpa [dacDataWrite_eq] using ht) hb'
      rw [i1, i2, i3, i4, i5, i6]
      simp only [dacDataWrite_eq, hb256]
      refine ⟨by simp, ?_, by simp [List.getLast?_cons], trivial, trivial, trivial⟩
      by_cases h1 : st.sampleStart = -1
      · have : st.time ≠ -1 := by omega
        simp [h1, this]
      · simp [h1]
    cases s with
    | wait t =>
      simp only [List.map_cons, run_cons, dacCommand, process_wait, dacTrace]
      have := ih { st with time := st.time + t } (by simp; omega) hb'
      simpa using this
    | waitNTSC =>
      simp only [List.map_cons, run_cons, dacCommand, process_waitNTSC, dacTrace]
      have := ih { st with time := st.time + st.waitTime 0 } (by simp; omega) hb'
      simpa using this
    | waitPAL =>
      simp only [List.map_cons, run_cons, dacCommand, process_waitPAL, dacTrace]
      have := ih { st with time := st.time + st.waitTime 1 } (by simp; omega) hb'
      simpa using this
    | waitShort n =>
      have hn : n < 16 := by simpa [DacStep.wellFormed] using hs
      simp only [List.map_cons, run_cons, dacCommand, process_waitShort p st n hn, dacTrace]
      have := ih { st with time := st.time + (n + 1 : Nat) } (by simp; omega) hb'
      simpa using this
    | data b =>
      have hb256 : b % 256 = b := Nat.mod_eq_of_lt (by simpa [DacStep.wellFormed] using hs)
      simp only [List.map_cons, run_cons, dacCommand, process_dacData, dacTrace]
      exact hdata b hb256
    | dataPort1 b =>
      have hb256 : b % 256 = b := Nat.mod_eq_of_lt (by simpa [DacStep.wellFormed] using hs)
      simp only [List.map_cons, run_cons, dacCommand, process_dacDataPort1, dacTrace]
      exact hdata b hb256
    | pcm n =>
      have hn : n < 16 := by simpa [DacStep.wellFormed] using hs
      simp only [List.map_cons, run_cons, dacCommand, process_pcm p st n hn, dacTrace]
      cases hblk : pcmBlock p with
      | none =>
        have := ih { st with time := st.time + (n : Int), dacPos := st.dacPos + 1 }
          (by simp; omega) hb'
        simpa [hblk] using this
      | some blk =>
        have hmod : blk st.dacPos % 256 % 256 = blk st.dacPos % 256 := Nat.mod_mod _ _
        obtain ⟨i1, i2, i3, i4, i5, i6⟩ :=
          ih { (dacDataWrite st (blk st.dacPos)) with
                time := st.time + (n : Int), dacPos := st.dacPos + 1 }
            (by simp; omega) hb'
        rw [i1, i2, i3, i4, i5, i6]
        simp only [dacDataWrite_eq, hblk]
        refine ⟨by simp, ?_, by simp [List.getLast?_cons], trivial, trivial, trivial⟩
        by_cases h1 : st.sampleStart = -1
        · have : st.time ≠ -1 := by omega
          simp [h1, this]
        · simp [h1]

theorem dacEnableWrite_on (st : State) (von : Nat) (hoff : st.dacOn = false)
    (hon : von &&& 0x80 ≠ 0) :
    dacEnableWrite st von = { st with sample := [], sampleStart := -1, dacOn := true } := by
  simp [dacEnableWrite, hoff, hon]

theorem dacEnableWrite_off (st : State) (voff : Nat) (hon : st.dacOn = true)
    (hoffv : voff &&& 0x80 = 0) :
    dacEnableWrite st voff
      = { st with
          wavs := st.wavs ++
            [⟨st.samplesCount, sampleRate st.sample.length st.sampleStart st.sampleEnd,
              st.sample⟩],
          samplesCount := st.samplesCount + 1,
          dacOn := false } := by
  simp [dacEnableWrite, hon, hoffv]

/-- The file written by a whole DAC recording, with the rate as `sampleRate`
gives it: the payload is the bytes of the steps, `sampleStart` is the tick of
the first byte (`-1` without any byte) and `sampleEnd` the tick of the last one
(the old `sampleEnd` without any byte). -/
theorem run_dacRecording (p : vgmParser) (st : State) (von voff : Nat)
    (steps : List DacStep)
    (hoff : st.dacOn = false) (htime : 0 ≤ st.time)
    (hon : von &&& 0x80 ≠ 0) (hoffv : voff &&& 0x80 = 0)
    (hbytes : ∀ s ∈ steps, DacStep.wellFormed s = true) :
    (run p st (dacRecording von voff steps)).wavs
        = st.wavs ++
          [⟨st.samplesCount,
            sampleRate
              ((dacTrace (pcmBlock p) st.waitTime st.time st.dacPos steps).map Prod.snd).length
              ((((dacTrace (pcmBlock p) st.waitTime st.time st.dacPos steps).map
                Prod.fst).head?).getD (-1))
              ((((dacTrace (pcmBlock p) st.waitTime st.time st.dacPos steps).map
                Prod.fst).getLast?).getD st.sampleEnd),
            (dacTrace (pcmBlock p) st.waitTime st.time st.dacPos steps).map Prod.snd⟩]
    ∧ (run p st (dacRecording von voff steps)).samplesCount = st.samplesCount + 1 := by
  unfold dacRecording
  rw [run_cons, run_append, process_dacEnable, dacEnableWrite_on st von hoff hon]
  obtain ⟨i1, i2, i3, i4, i5, i6⟩ :=
    run_dacSteps p steps { st with sample := [], sampleStart := -1, dacOn := true } htime hbytes
  simp only [if_true, List.nil_append] at i1 i2 i3
  generalize run p { st with sample := [], sampleStart := -1, dacOn := true }
    (steps.map dacCommand) = st2 at i1 i2 i3 i4 i5 i6 ⊢
  rw [run_cons]
  simp only [run, List.foldl_nil, process_dacEnable]
  rw [dacEnableWrite_off st2 voff i4 hoffv]
  simp only [i1, i2, i3, i5, i6, and_self]

/-- The trace of `k` writes of the byte `b` through port 0 followed by other
steps: `k` entries at the current tick, then the trace of the other steps. -/
theorem dacTrace_replicate_data (block : Option (Int → Nat)) (w : Nat → Nat) (T pos : Int)
    (b : Nat) (rest : List DacStep) :
    ∀ k : Nat, dacTrace block w T pos (List.replicate k (DacStep.data b) ++ rest)
      = List.replicate k (T, b) ++ dacTrace block w T pos rest := by
  intro k
  induction k with
  | zero => simp
  | succ k ih => simp [List.replicate_succ, dacTrace, ih]

/-- The recording that writes `k` zero bytes at the current tick, waits one tick
and writes one more zero byte, from the initial state: the ticks of its first
and last byte, the file it writes and the number of its bytes. -/
theorem run_dacBurst (k : Nat) (hk : 0 < k) :
    ((dacTrace (pcmBlock noBlocks) initialState.waitTime initialState.time initialState.dacPos
        (List.replicate k (DacStep.data 0) ++ [DacStep.wait 1, DacStep.data 0])).map
        Prod.fst).head? = some 0
    ∧ ((dacTrace (pcmBlock noBlocks) initialState.waitTime initialState.time initialState.dacPos
        (List.replicate k (DacStep.data 0) ++ [DacStep.wait 1, DacStep.data 0])).map
        Prod.fst).getLast? = some 1
    ∧ (run noBlocks initialState
        (dacRecording 0x80 0x00
          (List.replicate k (DacStep.data 0) ++ [DacStep.wait 1, DacStep.data 0]))).wavs
      = [⟨0, sampleRate (k + 1) 0 1, List.replicate k 0 ++ [0]⟩]
    ∧ (List.replicate k 0 ++ [0] : List Nat).length = k + 1 := by
  have htrace : dacTrace (pcmBlock noBlocks) initialState.waitTime initialState.time
      initialState.dacPos
      (List.replicate k (DacStep.data 0) ++ [DacStep.wait 1, DacStep.data 0])
      = List.replicate k ((0 : Int), 0) ++ [((1 : Int), 0)] := by
    rw [dacTrace_replicate_data]
    simp [dacTrace, initialState]
  have hwf : ∀ s ∈ List.replicate k (DacStep.data 0) ++ [DacStep.wait 1, DacStep.data 0],
      DacStep.wellFormed s = true := by
    intro s hs
    rcases List.mem_append.1 hs with h | h
    · rw [(List.mem_replicate.1 h).2]; rfl
    · simp only [List.mem_cons, List.mem_singleton, List.not_mem_nil, or_false] at h
      rcases h with h | h <;> rw [h] <;> rfl
  have hhead : ((List.replicate k ((0 : Int), (0 : Nat)) ++ [((1 : Int), 0)]).map
      Prod.fst).head? = some 0 := by
    obtain ⟨m, rfl⟩ := Nat.exists_eq_succ_of_ne_zero (Nat.pos_iff_ne_zero.1 hk)
    simp [List.replicate_succ]
  have hlast : ((List.replicate k ((0 : Int), (0 : Nat)) ++ [((1 : Int), 0)]).map
      Prod.fst).getLast? = some 1 := by
    simp
  have hsnd : (List.replicate k ((0 : Int), (0 : Nat)) ++ [((1 : Int), 0)]).map Prod.snd
      = List.replicate k (0 : Nat) ++ [0] := by
    simp
  have hw := (run_dacRecording noBlocks initialState 0x80 0x00 _ (by decide) (by decide)
    (by decide) (by decide) hwf).1
  rw [htrace, hhead, hlast, hsnd] at hw
  refine ⟨by rw [htrace, hhead], by rw [htrace, hlast], ?_, by simp⟩
  rw [hw]
  simp [initialState]

theorem wav_rate_ne (i : Nat) (r r' : Option Int) (d : List Nat) (h : r ≠ r') :
    ([⟨i, r, d⟩] : List WavFile) ≠ [⟨i, r', d⟩] := by
  intro e
  injection e with e1 _
  injection e1 with _ e2 _
  exact h e2

/-- C9 (amended): DAC sample finalisation.  From a state with the DAC off,
enabling the DAC, writing the data bytes of `steps` (through `0x52`, `0x53` or
`0x8n`, interleaved with waits) and disabling it writes one file and
`samplesCount` grows by one.  The payload of the file is exactly those bytes in
write order.  With `n` bytes, the first written at tick `t0` and the last at
tick `t1 > t0`, its rate is the integer part of `44100 * n / (t1 - t0)` when that
integer is at most `2^31 - 1`, the largest value of the `int` that holds the
rate, and the conversion to `int` has no defined value otherwise. -/
theorem dac_sample_finalised (p : vgmParser) (st : State) (von voff : Nat)
    (steps : List DacStep) (t0 t1 : Int)
    (hoff : st.dacOn = false) (htime : 0 ≤ st.time)
    (hon : von &&& 0x80 ≠ 0) (hoffv : voff &&& 0x80 = 0)
    (hbytes : ∀ s ∈ steps, DacStep.wellFormed s = true)
    (hfirst : ((dacTrace (pcmBlock p) st.waitTime st.time st.dacPos steps).map Prod.fst).head?
        = some t0)
    (hlast : ((dacTrace (pcmBlock p) st.waitTime st.time st.dacPos steps).map Prod.fst).getLast?
        = some t1)
    (hlt : t0 < t1) :
    (run p st (dacRecording von voff steps)).wavs
        = st.wavs ++
          [⟨st.samplesCount,
            (if (44100 * (((dacTrace (pcmBlock p) st.waitTime st.time st.dacPos steps).map
                  Prod.snd).length : Int)) / (t1 - t0) ≤ 2147483647
             then
              some ((44100 * (((dacTrace (pcmBlock p) st.waitTime st.time st.dacPos steps).map
                Prod.snd).length : Int)) / (t1 - t0))
             else none),
            (dacTrace (pcmBlock p) st.waitTime st.time st.dacPos steps).map Prod.snd⟩]
    ∧ (run p st (dacRecording von voff steps)).samplesCount = st.samplesCount + 1 := by
  obtain ⟨hw, hc⟩ := run_dacRecording p st von voff steps hoff htime hon hoffv hbytes
  refine ⟨?_, hc⟩
  rw [hw, hfirst, hlast]
  simp only [Option.getD_some]
  generalize ((dacTrace (pcmBlock p) st.waitTime st.time st.dacPos steps).map
    Prod.snd).length = n
  have hpos : (0 : Int) ≤ t1 - t0 := by omega
  have hne : t1 - t0 ≠ 0 := by omega
  have hdiv : Int.tdiv (44100 * (n : Int)) (t1 - t0) = (44100 * (n : Int)) / (t1 - t0) :=
    Int.tdiv_eq_ediv (by positivity) hpos
  have hlow : -2147483648 ≤ (44100 * (n : Int)) / (t1 - t0) :=
    le_trans (by decide) (Int.ediv_nonneg (by positivity) hpos)
  simp only [sampleRate, hne, if_false, hdiv, hlow, true_and]

/-- Witness for C9: from the initial state and with a PCM data block of bytes
30, the byte 10 through port 0, the byte 20 through port 1, a wait of one tick
(`0x70`) and a PCM write (`0x80`) give a sample `[10, 20, 30]` with one tick
between the first and the last byte, and rate 132300. -/
theorem dac_sample_finalised_witness :
    (run onePcmBlock initialState
        (dacRecording 0x80 0x00
          [DacStep.data 10, DacStep.dataPort1 20, DacStep.waitShort 0, DacStep.pcm 0])).wavs
      = [⟨0, some 132300, [10, 20, 30]⟩]
    ∧ (run onePcmBlock initialState
        (dacRecording 0x80 0x00
          [DacStep.data 10, DacStep.dataPort1 20, DacStep.waitShort 0,
            DacStep.pcm 0])).samplesCount
      = 1 :=
  dac_sample_finalised onePcmBlock initialState 0x80 0x00
    [DacStep.data 10, DacStep.dataPort1 20, DacStep.waitShort 0, DacStep.pcm 0] 0 1
    (by decide) (by decide) (by decide) (by decide) (by decide) (by decide) (by decide)
    (by decide)

/-- C9, counterexample: from the initial state, enable the DAC, write 48696
bytes at tick 0, wait one tick, write one more byte, disable.  The 48697 bytes
have first-byte tick 0 and last-byte tick 1, and the integer part of
`44100 * 48697 / 1` is 2147537700, above `2^31 - 1`: the conversion
`int sr = samplerate` (source line 286) has no defined value there, so the rate
of the file is not that integer. -/
theorem dac_rate_counterexample :
    ((dacTrace (pcmBlock noBlocks) initialState.waitTime initialState.time initialState.dacPos
        (List.replicate 48696 (DacStep.data 0) ++ [DacStep.wait 1, DacStep.data 0])).map
        Prod.fst).head? = some 0
    ∧ ((dacTrace (pcmBlock noBlocks) initialState.waitTime initialState.time initialState.dacPos
        (List.replicate 48696 (DacStep.data 0) ++ [DacStep.wait 1, DacStep.data 0])).map
        Prod.fst).getLast? = some 1
    ∧ (run noBlocks initialState
        (dacRecording 0x80 0x00
          (List.replicate 48696 (DacStep.data 0) ++ [DacStep.wait 1, DacStep.data 0]))).wavs
      = [⟨0, none, List.replicate 48696 0 ++ [0]⟩]
    ∧ (List.replicate 48696 0 ++ [0] : List Nat).length = 48697
    ∧ (44100 * 48697 : Int) / (1 - 0) = 2147537700
    ∧ (run noBlocks initialState
        (dacRecording 0x80 0x00
          (List.replicate 48696 (DacStep.data 0) ++ [DacStep.wait 1, DacStep.data 0]))).wavs
      ≠ [⟨0, some ((44100 * 48697 : Int) / (1 - 0)), List.replicate 48696 0 ++ [0]⟩] := by
  obtain ⟨h1, h2, h3, h4⟩ := run_dacBurst 48696 (by decide)
  have hrate : sampleRate (48696 + 1) 0 1 = none := by decide
  rw [hrate] at h3
  refine ⟨h1, h2, h3, h4, by decide, ?_⟩
  rw [h3]
  exact wav_rate_ne 0 none _ _ (fun h => Option.noConfusion h)

/-- C10: the code at two failing inputs, from the initial state.  Enable, one
data byte, disable without any wait: the divisor `sampleEnd - sampleStart` is
zero (no sample rate), the file is written all the same and `samplesCount`
becomes 1.  Enable, disable without any data byte: an empty file with rate 0 is
written and `samplesCount` becomes 1. -/
theorem dac_zero_duration_emitted :
    (run noBlocks initialState (dacRecording 0x80 0x00 [DacStep.data 10])).wavs
        = [⟨0, none, [10]⟩]
    ∧ (run noBlocks initialState (dacRecording 0x80 0x00 [DacStep.data 10])).samplesCount = 1
    ∧ (run noBlocks initialState (dacRecording 0x80 0x00 [])).wavs = [⟨0, some 0, []⟩]
    ∧ (run noBlocks initialState (dacRecording 0x80 0x00 [])).samplesCount = 1 := by
  decide

/-! ## End-to-end and quantiser claims -/

/-- C2: end to end through `process`, from the initial state with the raw
frequency of channel 0 set to `F`: for all 16-bit tick counts `t1`, `t2` and
every nonzero key-on mask, the stream wait `t1`, key-on channel 0, wait `t2`,
key-off channel 0 leaves `tracks[0]` equal to `[(t1, on, F, 0),
(t1+t2, off, F, 0)]`, every other timeline empty and exactly one instrument. -/
theorem process_key_on_off_stream (p : vgmParser) (F t1 t2 mask : Nat)
    (_h1 : t1 < 65536) (_h2 : t2 < 65536)
    (hm : mask &&& 0xF0 = mask) (h0 : mask ≠ 0) :
    (run p (startWithFreq F)
        [(0x61, waitArgs t1), (0x52, [0x28, mask ||| 0]), (0x61, waitArgs t2),
          (0x52, [0x28, 0x00])]).tracks 0
      = [⟨t1, 1, F, 0⟩, ⟨(t1 : Int) + t2, 0, F, 0⟩]
    ∧ (∀ k, k ≠ 0 →
        (run p (startWithFreq F)
          [(0x61, waitArgs t1), (0x52, [0x28, mask ||| 0]), (0x61, waitArgs t2),
            (0x52, [0x28, 0x00])]).tracks k = [])
    ∧ (run p (startWithFreq F)
        [(0x61, waitArgs t1), (0x52, [0x28, mask ||| 0]), (0x61, waitArgs t2),
          (0x52, [0x28, 0x00])]).instruments.length = 1 := by
  obtain ⟨m7, mF⟩ := mask_facts mask hm h0
  simp only [run, List.foldl_cons, List.foldl_nil, process_wait, process_keyOn, Nat.or_zero]
  refine ⟨?_, ?_, ?_⟩
  · simp [keyOnWrite, m7, mF, setReg28, pushNote, startWithFreq, initialState, getInstrumentId,
      getInstrumentIdFrom, zeroChannel]
  · intro k hk
    simp [keyOnWrite, m7, mF, setReg28, pushNote, startWithFreq, initialState, getInstrumentId,
      getInstrumentIdFrom, zeroChannel, Function.update_noteq hk]
  · simp [keyOnWrite, m7, mF, setReg28, pushNote, startWithFreq, initialState, getInstrumentId,
      getInstrumentIdFrom, zeroChannel]

/-- Witness for C2: `t1 = 100`, `t2 = 50`, mask `0xF0`, `F = 0x22A5`. -/
theorem process_key_on_off_stream_witness :
    (run noBlocks (startWithFreq 0x22A5)
        [(0x61, [100, 0]), (0x52, [0x28, 0xF0]), (0x61, [50, 0]), (0x52, [0x28, 0x00])]).tracks 0
      = [⟨100, 1, 0x22A5, 0⟩, ⟨150, 0, 0x22A5, 0⟩]
    ∧ (run noBlocks (startWithFreq 0x22A5)
        [(0x61, [100, 0]), (0x52, [0x28, 0xF0]), (0x61, [50, 0]),
          (0x52, [0x28, 0x00])]).instruments.length = 1 :=
  ⟨(process_key_on_off_stream noBlocks 0x22A5 100 50 0xF0 (by decide) (by decide) (by decide)
      (by decide)).1,
    (process_key_on_off_stream noBlocks 0x22A5 100 50 0xF0 (by decide) (by decide) (by decide)
      (by decide)).2.2⟩

set_option maxRecDepth 1000000 in
/-- C7: note/frequency round trip: for every note index `n` in `0..95`,
`getNote` of the raw block/fnum encoding of the note returns `n`; the linear
value of that encoding is the frequency `fmtbl[n%12]<<(n/12)` of `getPitch`. -/
theorem getNote_noteFrequency : ∀ n, n < 96 →
    getNote (noteFrequency n) = some (n : Int)
    ∧ (noteFrequency n &&& 0x7FF) <<< ((noteFrequency n &&& 0x3800) >>> 11)
        = fmtbl.getD (n % 12) 0 <<< (n / 12) := by
  decide

/-- Witness for C7: note 57 (A of octave 4). -/
theorem getNote_noteFrequency_witness :
    getNote (noteFrequency 57) = some 57
    ∧ (noteFrequency 57 &&& 0x7FF) <<< ((noteFrequency 57 &&& 0x3800) >>> 11)
        = fmtbl.getD (57 % 12) 0 <<< (57 / 12) :=
  getNote_noteFrequency 57 (by decide)

/-- C8: PSG quantisation recovers every candidate note.  Whatever the rounding
errors of the `double` arithmetic, as long as each is at most `1/256`, for
every search position `i` in `0..63` `getNotePSG` applied to that position's
divider, computed in exact rational arithmetic, returns `33 + i`; the divider
of A4 (octave 0, note 9) is 254 and `getNotePSG 254` is 57. -/
theorem getNotePSG_recovers_candidates (err : Nat → Int → ℚ)
    (herr : ∀ n o, |err n o| ≤ 1 / 256) :
    (∀ i, i < 64 →
      getNotePSG err (psgDivider 0 ((9 + i) % 12) (-2 + (((9 + i) / 12 : Nat) : Int)))
        = 33 + (i : Int))
    ∧ psgDivider 0 9 0 = 254
    ∧ getNotePSG err 254 = 57 := by
  have h0 : |(0 : ℚ)| ≤ 1 / 256 := by norm_num
  have hscan : ∀ f, getNotePSG err f = psgScan f psgTable 0 100000 (-1) := by
    intro f
    have := psgLoop_eq_scan err herr f 64 0 100000 (-1) rfl
    simpa [getNotePSG] using this
  refine ⟨?_, ?_, ?_⟩
  · intro i hi
    rw [psgDivider_table 0 h0 i hi, hscan]
    exact psgScan_table i hi
  · have := psgDivider_table 0 h0 24 (by decide)
    simpa [psgTable] using this
  · rw [hscan]
    exact psgScan_table 24 (by decide)

/-- Witness for C8: exact arithmetic (all rounding errors zero). -/
theorem getNotePSG_recovers_candidates_witness :
    (∀ i, i < 64 →
      getNotePSG (fun _ _ => 0)
          (psgDivider 0 ((9 + i) % 12) (-2 + (((9 + i) / 12 : Nat) : Int)))
        = 33 + (i : Int))
    ∧ psgDivider 0 9 0 = 254
    ∧ getNotePSG (fun _ _ => 0) 254 = 57 :=
  getNotePSG_recovers_candidates (fun _ _ => 0) (by intro n o; norm_num)

/-! ## PSG register writes -/

theorem psg_latch_facts : ∀ d, d < 16 → ∀ c, c < 4 →
    (0x80 ||| (c <<< 5) ||| d) &&& 0x80 ≠ 0
    ∧ ((0x80 ||| (c <<< 5) ||| d) >>> 4) &&& 7 = 2 * c
    ∧ (0x80 ||| (c <<< 5) ||| d) &&& 0xf = d := by
  decide

set_option maxRecDepth 100000 in
theorem psg_data_facts : ∀ D, D < 1024 →
    ((D >>> 4) &&& 0x3F) &&& 0x80 = 0
    ∧ (D &&& 0xF) ||| ((((D >>> 4) &&& 0x3F) &&& 0x3f) <<< 4) = D := by
  decide

theorem and_3f0_or_and_f (a d : Nat) (hd : d < 16) : ((a &&& 0x3f0) ||| d) &&& 0xf = d := by
  apply Nat.eq_of_testBit_eq
  intro i
  simp only [Nat.testBit_and, Nat.testBit_or]
  by_cases hi : i < 4
  · have h1 : Nat.testBit 0x3f0 i = false := by interval_cases i <;> rfl
    have h2 : Nat.testBit 0xf i = true := by interval_cases i <;> rfl
    simp [h1, h2]
  · have h2 : Nat.testBit 0xf i = false := by
      apply Nat.testBit_lt_two_pow
      calc 0xf < 2 ^ 4 := by norm_num
        _ ≤ 2 ^ i := Nat.pow_le_pow_right (by norm_num) (by omega)
    have h3 : Nat.testBit d i = false := by
      apply Nat.testBit_lt_two_pow
      calc d < 2 ^ 4 := by simpa using hd
        _ ≤ 2 ^ i := Nat.pow_le_pow_right (by norm_num) (by omega)
    simp [h2, h3]

theorem psg_reg_facts : ∀ c, c < 4 →
    2 * c < 8 ∧ (2 * c) &&& 1 = 0 ∧ (2 * c) >>> 1 = c ∧ c ≠ 6 := by
  decide

theorem sn76489write_latch (st : State) (c d : Nat) (hc : c < 4) (hd : d < 16) :
    sn76489write st (0x80 ||| (c <<< 5) ||| d)
      = { st with
          LatchedRegister := 2 * c,
          PSGFreq := Function.update st.PSGFreq c ((st.PSGFreq c &&& 0x3f0) ||| d) } := by
  obtain ⟨h1, h2, h3⟩ := psg_latch_facts d hd c hc
  obtain ⟨r1, r2, r3, -⟩ := psg_reg_facts c hc
  simp [sn76489write, h1, h2, h3, r1, r2, r3]

theorem sn76489write_data (st : State) (c v : Nat) (hc : c < 4) (hv : v &&& 0x80 = 0)
    (hl : st.LatchedRegister = 2 * c) :
    let f := (st.PSGFreq c &&& 0x00f) ||| ((v &&& 0x3f) <<< 4)
    let st1 : State := { st with PSGFreq := Function.update st.PSGFreq c f }
    sn76489write st v = (if st.PSGOn c then pushNote st1 (c + 6) ⟨st.time, 1, f, 0⟩ else st1) := by
  obtain ⟨r1, r2, r3, r4⟩ := psg_reg_facts c hc
  by_cases hon : st.PSGOn c = true <;> simp [sn76489write, hv, hl, r1, r2, r3, r4, hon]

/-- C18: PSG two-byte frequency assembly: for every state, PSG channel `c` in
`0..3` and 10-bit divider `D`, the latch byte `0x80 | (c<<5) | (D & 0xF)`
followed by the data byte `(D >> 4) & 0x3F` leaves `PSGFreq[c]` equal to `D`,
the frequency of every other channel and every volume unchanged, and the latch
register equal to `2c`. -/
theorem psg_frequency_assembly (st : State) (c D : Nat) (hc : c < 4) (hD : D < 1024) :
    (psgWrites st [0x80 ||| (c <<< 5) ||| (D &&& 0xF), (D >>> 4) &&& 0x3F]).PSGFreq c = D
    ∧ (∀ k, k ≠ c →
        (psgWrites st [0x80 ||| (c <<< 5) ||| (D &&& 0xF), (D >>> 4) &&& 0x3F]).PSGFreq k
          = st.PSGFreq k)
    ∧ (∀ k,
        (psgWrites st [0x80 ||| (c <<< 5) ||| (D &&& 0xF), (D >>> 4) &&& 0x3F]).PSGVol k
          = st.PSGVol k)
    ∧ (psgWrites st [0x80 ||| (c <<< 5) ||| (D &&& 0xF), (D >>> 4) &&& 0x3F]).LatchedRegister
        = 2 * c := by
  have hd : D &&& 0xF < 16 := Nat.lt_of_le_of_lt Nat.and_le_right (by norm_num)
  obtain ⟨v1, v2⟩ := psg_data_facts D hD
  have hlow := and_3f0_or_and_f (st.PSGFreq c) (D &&& 0xF) hd
  simp only [psgWrites, List.foldl_cons, List.foldl_nil]
  rw [sn76489write_latch st c (D &&& 0xF) hc hd, sn76489write_data _ c _ hc v1 rfl]
  by_cases hon : st.PSGOn c = true
  · simp only [hon, if_true, pushNote, Function.update_same, hlow, v2]
    refine ⟨trivial, fun k hk => ?_, fun k => trivial, trivial⟩
    simp [Function.update_noteq hk]
  · simp only [hon, Bool.false_eq_true, if_false, Function.update_same, hlow, v2]
    refine ⟨trivial, fun k hk => ?_, fun k => trivial, trivial⟩
    simp [Function.update_noteq hk]

/-- Witness for C18: channel 2 and divider 254 from the initial state. -/
theorem psg_frequency_assembly_witness :
    (psgWrites initialState [0x80 ||| (2 <<< 5) ||| (254 &&& 0xF), (254 >>> 4) &&& 0x3F]).PSGFreq 2
      = 254
    ∧ (psgWrites initialState
        [0x80 ||| (2 <<< 5) ||| (254 &&& 0xF), (254 >>> 4) &&& 0x3F]).LatchedRegister = 2 * 2 :=
  ⟨(psg_frequency_assembly initialState 2 254 (by decide) (by decide)).1,
    (psg_frequency_assembly initialState 2 254 (by decide) (by decide)).2.2.2⟩

theorem sn76489write_volume0 (st : State) (a : Nat) (ha : a < 16) :
    sn76489write st (0x90 ||| a)
      = (if (a != 0xF) != st.PSGOn 0 then
          pushNote
            { st with LatchedRegister := 1, PSGVol := Function.update st.PSGVol 0 a,
                      PSGOn := Function.update st.PSGOn 0 (a != 0xF) }
            6 ⟨st.time, if a != 0xF then 1 else 0, st.PSGFreq 0, 0⟩
         else { st with LatchedRegister := 1, PSGVol := Function.update st.PSGVol 0 a }) := by
  have h : ∀ b, b < 16 → (0x90 ||| b) &&& 0x80 ≠ 0 ∧ ((0x90 ||| b) >>> 4) &&& 7 = 1
      ∧ (0x90 ||| b) &&& 0xF = b := by decide
  obtain ⟨h1, h2, h3⟩ := h a ha
  have e1 : (1 : Nat) &&& 1 = 1 := by decide
  have e2 : (1 : Nat) >>> 1 = 0 := by decide
  by_cases hflip : ((a != 0xF) != st.PSGOn 0) = true <;>
    simp [sn76489write, h1, h2, h3, e1, e2, hflip, pushNote]

/-- C11 (amended): from a state in which PSG channel 0 is off, for every 10-bit
divider `D` the bytes volume `0x0`, frequency latch, frequency data, volume
`0xF` append exactly three events to `tracks[6]`: ON (with the old divider)
when the volume becomes non-silent, ON with divider `D` when the frequency data
byte arrives while the channel is on, and OFF with divider `D` when the volume
becomes silent; the latch byte appends nothing. -/
theorem psg_on_off_events (st : State) (D : Nat) (hD : D < 1024) (hoff : st.PSGOn 0 = false) :
    (psgWrites st (psgOnOffBytes D)).tracks 6
      = st.tracks 6 ++ [⟨st.time, 1, st.PSGFreq 0, 0⟩, ⟨st.time, 1, D, 0⟩, ⟨st.time, 0, D, 0⟩] := by
  have hd : D &&& 0xF < 16 := Nat.lt_of_le_of_lt Nat.and_le_right (by norm_num)
  obtain ⟨v1, v2⟩ := psg_data_facts D hD
  have hlow := and_3f0_or_and_f (st.PSGFreq 0) (D &&& 0xF) hd
  have b0 : (0x90 : Nat) = 0x90 ||| 0 := by decide
  have b3 : (0x9F : Nat) = 0x90 ||| 0xF := by decide
  have b1 : 0x80 ||| (D &&& 0xF) = 0x80 ||| (0 <<< 5) ||| (D &&& 0xF) := by simp
  simp only [psgWrites, psgOnOffBytes, List.foldl_cons, List.foldl_nil]
  rw [b0, sn76489write_volume0 st 0 (by decide), b1, sn76489write_latch _ 0 _ (by decide) hd,
    sn76489write_data _ 0 _ (by decide) v1 rfl, b3, sn76489write_volume0 _ 0xF (by decide)]
  simp [hoff, pushNote, hlow, v2]

/-- Witness for C11: divider 254 from the initial state. -/
theorem psg_on_off_events_witness :
    (psgWrites initialState (psgOnOffBytes 254)).tracks 6
      = [⟨0, 1, 0, 0⟩, ⟨0, 1, 254, 0⟩, ⟨0, 0, 254, 0⟩] :=
  psg_on_off_events initialState 254 (by decide) (by decide)

/-- C11, counterexample: for divider 254 from the initial state the four bytes
leave three events on `tracks[6]`, not two: the frequency data byte, arriving
while the channel is on, appends an ON event of its own. -/
theorem psg_on_off_counterexample :
    ((psgWrites initialState (psgOnOffBytes 254)).tracks 6).length = 3
    ∧ ((psgWrites initialState (psgOnOffBytes 254)).tracks 6).map (fun n => n.onFlag) = [1, 1, 0] := by
  decide

/-! ## Instrument list stability -/

theorem copyLoop_eq (s x : InstrumentConverter) : copyLoop s 4 0 x = withAttenuationsOf x s := by
  simp only [copyLoop, withAttenuationsOf]
  simp only [Nat.lt_irrefl, if_false, Nat.zero_lt_succ, if_true, Nat.reduceAdd, Nat.reduceLT]
  congr 1
  funext j
  by_cases h0 : j = 0
  · subst h0; simp [Function.update]
  by_cases h1 : j = 1
  · subst h1; simp [Function.update]
  by_cases h2 : j = 2
  · subst h2; simp [Function.update]
  by_cases h3 : j = 3
  · subst h3; simp [Function.update]
  have h4 : ¬ j < 4 := by omega
  simp [Function.update, h0, h1, h2, h3, h4]

theorem volumeLoop_off (i : Nat) (inst x : InstrumentConverter) (h : operatorOff inst i = true) :
    volumeLoop i inst x 4 0 (0, 0) = (0, 0) := by
  simp [volumeLoop, h]

theorem loudness_withAttenuationsOf (x s : InstrumentConverter) :
    loudness (withAttenuationsOf x s) = loudness s := by
  simp [loudness, withAttenuationsOf]

/-- The entry after "copy louder" is the old entry, or the old entry with the
attenuation bytes of the snapshot, and then its summed loudness has grown. -/
theorem copyLouder_cases (i : Nat) (s x : InstrumentConverter) :
    copyLouder i s x = x
    ∨ (copyLouder i s x = withAttenuationsOf x s
        ∧ loudness x < loudness (withAttenuationsOf x s)) := by
  unfold copyLouder
  by_cases hoff : operatorOff s i = true
  · left
    simp only [volumeLoop_off i s x hoff]
    simp
  · simp only [Bool.not_eq_true] at hoff
    simp only [volumeLoop_on i s x hoff]
    split
    · rename_i hgt
      right
      refine ⟨copyLoop_eq s x, ?_⟩
      rw [loudness_withAttenuationsOf]
      exact hgt
    · left; rfl

/-- Shape of the result of the instrument loop started at index `i`: either
the snapshot is appended, or one entry is replaced by its "copy louder". -/
theorem getInstrumentIdFrom_shape (s : InstrumentConverter) :
    ∀ (L : List InstrumentConverter) (i : Nat),
      ((getInstrumentIdFrom s i L).1 = i + L.length ∧ (getInstrumentIdFrom s i L).2 = L ++ [s])
      ∨ (i ≤ (getInstrumentIdFrom s i L).1
          ∧ (getInstrumentIdFrom s i L).1 - i < L.length
          ∧ (getInstrumentIdFrom s i L).2.length = L.length
          ∧ (∀ k, k ≠ (getInstrumentIdFrom s i L).1 - i →
              (getInstrumentIdFrom s i L).2[k]? = L[k]?)
          ∧ ∃ x, L[(getInstrumentIdFrom s i L).1 - i]? = some x
              ∧ (getInstrumentIdFrom s i L).2[(getInstrumentIdFrom s i L).1 - i]?
                  = some (copyLouder (getInstrumentIdFrom s i L).1 s x)) := by
  intro L
  induction L with
  | nil => intro i; left; simp [getInstrumentIdFrom]
  | cons x rest ih =>
    intro i
    by_cases hx : sameInstrument i s x = true
    · right
      simp only [getInstrumentIdFrom, hx, if_true, Nat.sub_self, List.length_cons]
      refine ⟨le_refl _, by omega, trivial, ?_, x, by simp, by simp⟩
      intro k hk
      cases k with
      | zero => exact absurd rfl hk
      | succ k => simp
    · simp only [Bool.not_eq_true] at hx
      simp only [getInstrumentIdFrom, hx, Bool.false_eq_true, if_false]
      rcases ih (i + 1) with ⟨h1, h2⟩ | ⟨h1, h2, h3, h4, y, h5, h6⟩
      · left
        refine ⟨by rw [h1]; simp; omega, by rw [h2]; simp⟩
      · right
        have e : (getInstrumentIdFrom s (i + 1) rest).1 - i
            = ((getInstrumentIdFrom s (i + 1) rest).1 - (i + 1)) + 1 := by omega
        refine ⟨by omega, by simp; omega, by simp [h3], ?_, y, ?_, ?_⟩
        · intro k hk
          cases k with
          | zero => simp
          | succ k =>
            simp only [List.getElem?_cons_succ]
            exact h4 k (by omega)
        · rw [e, List.getElem?_cons_succ]; exact h5
        · rw [e, List.getElem?_cons_succ]; exact h6

/-- C13: instrument indices are stable and entries are only made louder.
`getInstrumentId` either returns `|L|` and appends the snapshot as the new last
entry, or returns an index `i < |L|`, keeps the length and every other entry,
and leaves entry `i` unchanged or replaces its four attenuation bytes `reg40`
by those of the snapshot, which then strictly increases its summed loudness. -/
theorem getInstrumentId_stable (L : List InstrumentConverter) (s : InstrumentConverter) :
    ((getInstrumentId L s).1 = L.length ∧ (getInstrumentId L s).2 = L ++ [s])
    ∨ ((getInstrumentId L s).1 < L.length
        ∧ (getInstrumentId L s).2.length = L.length
        ∧ (∀ k, k ≠ (getInstrumentId L s).1 → (getInstrumentId L s).2[k]? = L[k]?)
        ∧ ∃ x, L[(getInstrumentId L s).1]? = some x
            ∧ ((getInstrumentId L s).2[(getInstrumentId L s).1]? = some x
                ∨ ((getInstrumentId L s).2[(getInstrumentId L s).1]?
                      = some (withAttenuationsOf x s)
                    ∧ loudness x < loudness (withAttenuationsOf x s)))) := by
  unfold getInstrumentId
  rcases getInstrumentIdFrom_shape s L 0 with ⟨h1, h2⟩ | ⟨-, h2, h3, h4, x, h5, h6⟩
  · left
    exact ⟨by simpa using h1, h2⟩
  · right
    simp only [Nat.sub_zero] at h2 h4 h5 h6
    refine ⟨h2, h3, h4, x, h5, ?_⟩
    rcases copyLouder_cases (getInstrumentIdFrom s 0 L).1 s x with hc | ⟨hc, hl⟩
    · left; rw [h6, hc]
    · right; exact ⟨by rw [h6, hc], hl⟩

theorem getInstrumentId_index_lt (L : List InstrumentConverter) (s : InstrumentConverter) :
    (getInstrumentId L s).1 < (getInstrumentId L s).2.length
    ∧ L.length ≤ (getInstrumentId L s).2.length := by
  unfold getInstrumentId
  rcases getInstrumentIdFrom_shape s L 0 with ⟨h1, h2⟩ | ⟨-, h2, h3, -⟩
  · rw [h1, h2]; simp
  · simp only [Nat.sub_zero] at h2
    rw [h3]; exact ⟨h2, le_refl _⟩

/-! ## Unrecognised commands -/

set_option maxRecDepth 100000 in
theorem high_nibble_facts : ∀ cmd, cmd < 256 → (cmd &&& 0xF0 = 0x70 ∨ cmd &&& 0xF0 = 0x80) →
    (decide (0x70 ≤ cmd) && decide (cmd ≤ 0x8F)) = true := by
  decide

theorem unrecognised_facts (cmd : Nat) (hbyte : cmd < 256) (h : recognisedCommand cmd = false) :
    cmd ≠ 0x4F ∧ cmd ≠ 0x50 ∧ cmd ≠ 0x52 ∧ cmd ≠ 0x53 ∧ cmd ≠ 0x61 ∧ cmd ≠ 0x62
    ∧ cmd ≠ 0x63 ∧ cmd ≠ 0x64 ∧ cmd ≠ 0x66 ∧ cmd ≠ 0xE0
    ∧ cmd &&& 0xF0 ≠ 0x70 ∧ cmd &&& 0xF0 ≠ 0x80 := by
  have hn := high_nibble_facts cmd hbyte
  simp only [recognisedCommand, Bool.or_eq_false_iff, beq_eq_false_iff_ne] at h
  obtain ⟨⟨⟨⟨⟨⟨⟨⟨⟨⟨h1, h2⟩, h3⟩, h4⟩, h5⟩, h6⟩, h7⟩, h8⟩, h9⟩, h10⟩, h11⟩ := h
  refine ⟨h1, h2, h3, h4, h5, h6, h7, h8, h9, h10, ?_, ?_⟩
  · intro hc; rw [hn (Or.inl hc)] at h11; exact Bool.noConfusion h11
  · intro hc; rw [hn (Or.inr hc)] at h11; exact Bool.noConfusion h11

/-- C14: unrecognised commands are skipped without effect: for every opcode
byte that `process` does not recognise, every state and every operand bytes,
`process` returns `false` and the state unchanged (time accumulator, both
chips' registers, DAC state, instrument list and all timelines). -/
theorem process_unrecognised (p : vgmParser) (st : State) (cmd : Nat) (args : List Nat)
    (hbyte : cmd < 256) (hcmd : recognisedCommand cmd = false) :
    process p st cmd args = (false, st) := by
  obtain ⟨h1, h2, h3, h4, h5, h6, h7, h8, h9, h10, h11, h12⟩ :=
    unrecognised_facts cmd hbyte hcmd
  simp [process, h1, h2, h3, h4, h5, h6, h7, h8, h9, h10, h11, h12]

/-- Witness for C14: opcode `0x51` (a YM2413 write, not handled here). -/
theorem process_unrecognised_witness :
    process noBlocks initialState 0x51 [0x10, 0x20] = (false, initialState) :=
  process_unrecognised noBlocks initialState 0x51 [0x10, 0x20] (by decide) (by decide)

/-! ## FM frequency and operator writes -/

theorem freq_reg_facts : ∀ c, c ≤ 2 →
    (0xA0 + c) &&& 3 = c ∧ (0xA0 + c) &&& 0xF0 = 0xA0 ∧ (0xA0 + c) &&& 0xC = 0
    ∧ (0xA4 + c) &&& 3 = c ∧ (0xA4 + c) &&& 0xF0 = 0xA0 ∧ (0xA4 + c) &&& 0xC = 4 := by
  decide

theorem ym2612write_freqLow (st : State) (p c val : Nat) (hc : c ≤ 2) :
    ym2612write st p (0xA0 + c) val = freqWrite st (p * 3 + c) (0xA0 + c) val := by
  obtain ⟨h1, h2, -, -, -, -⟩ := freq_reg_facts c hc
  have hc3 : c ≠ 3 := by omega
  simp [ym2612write, h1, h2, hc3]

theorem ym2612write_freqHigh (st : State) (p c val : Nat) (hc : c ≤ 2) :
    ym2612write st p (0xA4 + c) val = freqWrite st (p * 3 + c) (0xA4 + c) val := by
  obtain ⟨-, -, -, h1, h2, -⟩ := freq_reg_facts c hc
  have hc3 : c ≠ 3 := by omega
  simp [ym2612write, h1, h2, hc3]

/-- C16: FM frequency writes.  A write to the low-byte register `0xA0+c` of
channel `ch = 3p+c` sets `freq[ch]` to `(old & 0xFF00) | val`, appends exactly
one event `(time, on, new freq, lastInstrument[ch])` to `tracks[ch]` when the
stored key-on mask of `ch` is nonzero and no event otherwise, and leaves the
instrument list unchanged.  A write to the high-byte register `0xA4+c` sets
`freq[ch]` to `(old & 0xFF) | (val << 8)` and appends no event to any
timeline. -/
theorem fm_frequency_writes (st : State) (p c val : Nat) (_hp : p ≤ 1) (hc : c ≤ 2)
    (_hval : val < 256) :
    ((ym2612write st p (0xA0 + c) val).freq (3 * p + c) = (st.freq (3 * p + c) &&& 0xFF00) ||| val
      ∧ (ym2612write st p (0xA0 + c) val).tracks
          = (if (st.channel (3 * p + c)).reg28 ≠ 0 then
              Function.update st.tracks (3 * p + c)
                (st.tracks (3 * p + c) ++
                  [⟨st.time, 1, (st.freq (3 * p + c) &&& 0xFF00) ||| val,
                    st.lastInstrument (3 * p + c)⟩])
             else st.tracks)
      ∧ (ym2612write st p (0xA0 + c) val).instruments = st.instruments)
    ∧ ((ym2612write st p (0xA4 + c) val).freq (3 * p + c)
          = (st.freq (3 * p + c) &&& 0xFF) ||| (val <<< 8)
      ∧ (ym2612write st p (0xA4 + c) val).tracks = st.tracks) := by
  obtain ⟨-, -, l3, -, -, h3⟩ := freq_reg_facts c hc
  have hch : p * 3 + c = 3 * p + c := by omega
  rw [ym2612write_freqLow st p c val hc, ym2612write_freqHigh st p c val hc, hch]
  refine ⟨?_, ?_⟩
  · by_cases hk : (st.channel (3 * p + c)).reg28 = 0 <;>
      simp [freqWrite, l3, updateCH3, pushNote, hk]
  · simp [freqWrite, h3, updateCH3]

/-- Witness for C16: channel 4 (port 1, `c = 1`) keyed on from the initial state,
then the low-byte write `0x53 0xA1 0x69` appends the glide event; the high-byte
write `0x53 0xA5 0x69` appends nothing. -/
theorem fm_frequency_writes_witness :
    (ym2612write (keyOnWrite initialState 0xF5) 1 (0xA0 + 1) 0x69).tracks 4
      = [⟨0, 1, 0, 0⟩, ⟨0, 1, 0x69, 0⟩]
    ∧ (ym2612write (keyOnWrite initialState 0xF5) 1 (0xA4 + 1) 0x69).tracks 4 = [⟨0, 1, 0, 0⟩]
    ∧ (ym2612write (keyOnWrite initialState 0xF5) 1 (0xA4 + 1) 0x69).freq 4 = 0x6900 := by
  have h := fm_frequency_writes (keyOnWrite initialState 0xF5) 1 1 0x69 (by decide) (by decide)
    (by decide)
  refine ⟨?_, ?_, ?_⟩
  · rw [h.1.2.1]; decide
  · rw [h.2.2]; decide
  · rw [show (4 : Nat) = 3 * 1 + 1 from rfl, h.2.1]; decide

set_option maxRecDepth 100000 in
theorem operator_reg_nibble : ∀ reg, reg ≤ 0x9F → 0x30 ≤ reg →
    (reg &&& 0xF0 = 0x30 ∨ reg &&& 0xF0 = 0x40 ∨ reg &&& 0xF0 = 0x50 ∨ reg &&& 0xF0 = 0x60
      ∨ reg &&& 0xF0 = 0x70 ∨ reg &&& 0xF0 = 0x80 ∨ reg &&& 0xF0 = 0x90) := by
  decide

theorem ym2612write_operator (st : State) (p reg val : Nat) (hlo : 0x30 ≤ reg)
    (hhi : reg ≤ 0x9F) (h3 : reg &&& 3 ≠ 3) :
    ym2612write st p reg val
      = setOp st (p * 3 + (reg &&& 3)) (((reg >>> 1) &&& 2) ||| ((reg >>> 3) &&& 1))
          (writeOpReg (reg &&& 0xF0) val) := by
  rcases operator_reg_nibble reg hhi hlo with h | h | h | h | h | h | h <;>
    · simp only [ym2612write, h3, and_false, if_false, h]
      simp [writeOpReg, setOp]

theorem opReg_writeOpReg (k val : Nat) (o : RawFMOperator)
    (hk : k = 0x30 ∨ k = 0x40 ∨ k = 0x50 ∨ k = 0x60 ∨ k = 0x70 ∨ k = 0x80 ∨ k = 0x90) :
    opReg k (writeOpReg k val o) = val
    ∧ ∀ k', k' ≠ k → opReg k' (writeOpReg k val o) = opReg k' o := by
  rcases hk with h | h | h | h | h | h | h <;> subst h <;>
    · refine ⟨by simp [opReg, writeOpReg], fun k' hk' => ?_⟩
      simp only [writeOpReg, Nat.reduceEqDiff, if_true, if_false]
      unfold opReg
      simp [hk']

/-- C17: operator register writes are stored verbatim and touch nothing else.
For `reg` in `0x30..0x9F` with `reg&3 != 3`, `ym2612write(p, reg, val)` sets
the register selected by `reg & 0xF0` of operator slot
`s = ((reg>>1)&2) | ((reg>>3)&1)` of channel `3p + (reg&3)` to `val`; the other
registers of that operator, the other operators, the registers of the channel,
the other channels and every other part of the state are unchanged.  For
`reg >= 0x30` with `reg&3 == 3` the state is unchanged. -/
theorem operator_write_frame (st : State) (p reg val : Nat) (_hp : p ≤ 1)
    (hlo : 0x30 ≤ reg) (hhi : reg ≤ 0x9F) (h3 : reg &&& 3 ≠ 3) (_hval : val < 256) :
    opReg (reg &&& 0xF0)
        (((ym2612write st p reg val).channel (3 * p + (reg &&& 3))).op
          (((reg >>> 1) &&& 2) ||| ((reg >>> 3) &&& 1))) = val
    ∧ (∀ k, k ≠ reg &&& 0xF0 →
        opReg k (((ym2612write st p reg val).channel (3 * p + (reg &&& 3))).op
              (((reg >>> 1) &&& 2) ||| ((reg >>> 3) &&& 1)))
          = opReg k (((st.channel (3 * p + (reg &&& 3))).op
              (((reg >>> 1) &&& 2) ||| ((reg >>> 3) &&& 1)))))
    ∧ (∀ s, s ≠ ((reg >>> 1) &&& 2) ||| ((reg >>> 3) &&& 1) →
        ((ym2612write st p reg val).channel (3 * p + (reg &&& 3))).op s
          = (st.channel (3 * p + (reg &&& 3))).op s)
    ∧ (∀ ch, ch ≠ 3 * p + (reg &&& 3) →
        (ym2612write st p reg val).channel ch = st.channel ch)
    ∧ { ((ym2612write st p reg val).channel (3 * p + (reg &&& 3))) with
          op := (st.channel (3 * p + (reg &&& 3))).op } = st.channel (3 * p + (reg &&& 3))
    ∧ { (ym2612write st p reg val) with channel := st.channel } = st
    ∧ (∀ reg', 0x30 ≤ reg' → reg' &&& 3 = 3 → ym2612write st p reg' val = st) := by
  have hch : p * 3 + (reg &&& 3) = 3 * p + (reg &&& 3) := by omega
  rw [ym2612write_operator st p reg val hlo hhi h3, hch]
  obtain ⟨w1, w2⟩ := opReg_writeOpReg (reg &&& 0xF0) val
    ((st.channel (3 * p + (reg &&& 3))).op (((reg >>> 1) &&& 2) ||| ((reg >>> 3) &&& 1)))
    (operator_reg_nibble reg hhi hlo)
  refine ⟨?_, ?_, ?_, ?_, ?_, ?_, ?_⟩
  · simpa [setOp] using w1
  · intro k hk
    simpa [setOp] using w2 k hk
  · intro s hs
    simp only [setOp, Function.update_same]
    exact Function.update_noteq hs _ _
  · intro ch hne
    simp [setOp, Function.update_noteq hne]
  · simp [setOp]
  · simp [setOp]
  · intro reg' h30 h33
    simp [ym2612write, h30, h33]

/-- Witness for C17: `0x53 0x4D val`: port 1, register `0x4D` (TL of slot 3 of
channel 4), value `0x1A`, from the initial state. -/
theorem operator_write_frame_witness :
    (((ym2612write initialState 1 0x4D 0x1A).channel 4).op 3).reg40 = 0x1A
    ∧ { (ym2612write initialState 1 0x4D 0x1A) with channel := initialState.channel }
        = initialState :=
  ⟨(operator_write_frame initialState 1 0x4D 0x1A (by decide) (by decide) (by decide)
      (by decide) (by decide)).1,
    (operator_write_frame initialState 1 0x4D 0x1A (by decide) (by decide) (by decide)
      (by decide) (by decide)).2.2.2.2.2.1⟩

/-! ## Nearest note of `getNote` -/

set_option maxRecDepth 100000 in
theorem fmShift_val : ∀ n : Nat, n < 13 → ∀ o : Nat, o < 20 →
    fmShift (n : Int) (o : Int) = some ((fmtbl.getD n 0 <<< o : Nat) : Int) := by
  decide

theorem fmtbl_mono : ∀ a, a < 13 → ∀ b, b < 13 → a ≤ b → fmtbl.getD a 0 ≤ fmtbl.getD b 0 := by
  decide

theorem fmtbl_bounds : ∀ a, a < 13 → 644 ≤ fmtbl.getD a 0 ∧ fmtbl.getD a 0 ≤ 1288 := by
  decide

theorem octaveLoop_spec (f : Nat) (o1 : Nat) (ho1 : o1 < 20) (hhi : f < 644 <<< o1) :
    ∀ (fuel o : Nat), o + fuel = 20 → o ≤ o1 →
      (∀ o', o ≤ o' → o' < o1 → 644 <<< o' ≤ f) →
      octaveLoop (f : Int) fuel (o : Int) = some (o1 : Int) := by
  intro fuel
  induction fuel with
  | zero => intro o h1 h2 _; omega
  | succ fuel ih =>
    intro o h1 h2 hlo
    have ho : o < 20 := by omega
    have hs := fmShift_val 0 (by decide) o ho
    simp only [Nat.cast_zero] at hs
    have hs' : fmShift 0 (o : Int) = some ((644 <<< o : Nat) : Int) := hs
    unfold octaveLoop
    have ho' : (o : Int) < 20 := by exact_mod_cast ho
    simp only [ho', if_true, hs']
    by_cases heq : o = o1
    · subst heq
      have : ((644 <<< o : Nat) : Int) > (f : Int) := by exact_mod_cast hhi
      simp [this]
    · have hlt : o < o1 := by omega
      have hle := hlo o (le_refl _) hlt
      have : ¬ ((644 <<< o : Nat) : Int) > (f : Int) := by
        have : ((644 <<< o : Nat) : Int) ≤ (f : Int) := by exact_mod_cast hle
        omega
      simp only [this, if_false]
      have := ih (o + 1) (by omega) (by omega) (fun o' h h' => hlo o' (by omega) h')
      simpa using this

theorem semitoneLoop_spec (f o : Nat) (ho : o < 20) (n1 : Nat) (hn1 : n1 ≤ 12)
    (hhi : n1 < 12 → f < fmtbl.getD n1 0 <<< o) :
    ∀ (fuel n : Nat), n + fuel = 12 → n ≤ n1 →
      (∀ n', n ≤ n' → n' < n1 → fmtbl.getD n' 0 <<< o ≤ f) →
      semitoneLoop (f : Int) (o : Int) fuel (n : Int) = some (n1 : Int) := by
  intro fuel
  induction fuel with
  | zero =>
    intro n h1 h2 _
    have : n = n1 := by omega
    subst this
    rfl
  | succ fuel ih =>
    intro n h1 h2 hlo
    have hn : n < 12 := by omega
    have hs := fmShift_val n (by omega) o ho
    unfold semitoneLoop
    have hn' : (n : Int) < 12 := by exact_mod_cast hn
    simp only [hn', if_true, hs]
    by_cases heq : n = n1
    · subst heq
      have : ((fmtbl.getD n 0 <<< o : Nat) : Int) > (f : Int) := by exact_mod_cast hhi hn
      simp only [this, if_true]
    · have hlt : n < n1 := by omega
      have hle := hlo n (le_refl _) hlt
      have : ¬ ((fmtbl.getD n 0 <<< o : Nat) : Int) > (f : Int) := by
        have : ((fmtbl.getD n 0 <<< o : Nat) : Int) ≤ (f : Int) := by exact_mod_cast hle
        omega
      simp only [this, if_false]
      have := ih (n + 1) (by omega) (by omega) (fun n' h h' => hlo n' (by omega) h')
      simpa using this

theorem getNote_of_loops (raw o0 n0 : Nat) (hn0 : n0 < 12) (ho0 : o0 < 19)
    (h1 : octaveLoop (linearFrequency raw : Int) 20 0 = some ((o0 + 1 : Nat) : Int))
    (h2 : semitoneLoop (linearFrequency raw : Int) (o0 : Int) 12 0 = some ((n0 + 1 : Nat) : Int)) :
    getNote raw
      = some (((min
          (if linearFrequency raw * linearFrequency raw
                > (fmtbl.getD (n0 + 1) 0 <<< o0) * (fmtbl.getD n0 0 <<< o0)
            then 12 * o0 + n0 + 1 else 12 * o0 + n0) 95 : Nat) : Int)) := by
  have e1 : ((o0 + 1 : Nat) : Int) - 1 = (o0 : Int) := by push_cast; ring
  have e2 : ((n0 + 1 : Nat) : Int) - 1 = (n0 : Int) := by push_cast; ring
  have s1 := fmShift_val (n0 + 1) (by omega) o0 (by omega)
  have s2 := fmShift_val n0 (by omega) o0 (by omega)
  have hn : ¬ ((n0 : Int) < 0) := by omega
  have ho : (o0 : Int) ≥ 0 := by omega
  have e3 : (n0 : Int) + 1 = ((n0 + 1 : Nat) : Int) := by push_cast; rfl
  unfold getNote
  simp only [linearFrequency] at h1 h2 ⊢
  simp only [h1, Option.bind_eq_bind, Option.some_bind, e1, h2, e2, hn, if_false, ho, if_true,
    e3, s1, s2, Option.pure_def]
  rw [Option.some.injEq]
  by_cases hc : linearFrequency raw * linearFrequency raw
      > (fmtbl.getD (n0 + 1) 0 <<< o0) * (fmtbl.getD n0 0 <<< o0)
  · have hcI : ((linearFrequency raw : Nat) : Int) * ((linearFrequency raw : Nat) : Int)
        > ((fmtbl.getD (n0 + 1) 0 <<< o0 : Nat) : Int) * ((fmtbl.getD n0 0 <<< o0 : Nat) : Int) := by
      exact_mod_cast hc
    simp only [linearFrequency] at hc hcI
    simp only [hc, hcI, if_true, Nat.min_def]
    by_cases h12 : n0 + 1 = 12
    · have h12I : ((n0 + 1 : Nat) : Int) = 12 := by exact_mod_cast h12
      simp only [h12I, if_true]
      split_ifs <;> push_cast <;> omega
    · have h12I : ¬ ((n0 + 1 : Nat) : Int) = 12 := by exact_mod_cast h12
      simp only [h12I, if_false]
      split_ifs <;> push_cast <;> omega
  · have hcI : ¬ ((linearFrequency raw : Nat) : Int) * ((linearFrequency raw : Nat) : Int)
        > ((fmtbl.getD (n0 + 1) 0 <<< o0 : Nat) : Int) * ((fmtbl.getD n0 0 <<< o0 : Nat) : Int) := by
      exact_mod_cast hc
    have h12I : ¬ (n0 : Int) = 12 := by omega
    simp only [linearFrequency] at hc hcI
    simp only [hc, hcI, if_false, Nat.min_def, h12I]
    split_ifs <;> push_cast <;> omega

theorem linearFrequency_lt (raw : Nat) : linearFrequency raw < 2 ^ 18 := by
  unfold linearFrequency
  have h1 : raw &&& 0x7FF ≤ 0x7FF := Nat.and_le_right
  have h2 : (raw &&& 0x3800) >>> 11 ≤ 7 := by
    have : raw &&& 0x3800 ≤ 0x3800 := Nat.and_le_right
    rw [Nat.shiftRight_eq_div_pow]
    omega
  rw [Nat.shiftLeft_eq]
  calc (raw &&& 0x7FF) * 2 ^ ((raw &&& 0x3800) >>> 11)
      ≤ 0x7FF * 2 ^ 7 := Nat.mul_le_mul h1 (Nat.pow_le_pow_right (by norm_num) h2)
    _ < 2 ^ 18 := by norm_num

theorem noteValue_succ (m : Nat) :
    noteValue (m + 1) = fmtbl.getD (m % 12 + 1) 0 <<< (m / 12) := by
  unfold noteValue
  by_cases h : m % 12 = 11
  · have e1 : (m + 1) % 12 = 0 := by omega
    have e2 : (m + 1) / 12 = m / 12 + 1 := by omega
    rw [e1, e2, h]
    simp only [Nat.shiftLeft_eq]
    have : fmtbl.getD (11 + 1) 0 = 2 * fmtbl.getD 0 0 := by decide
    rw [this, pow_succ]
    ring
  · have e1 : (m + 1) % 12 = m % 12 + 1 := by omega
    have e2 : (m + 1) / 12 = m / 12 := by omega
    rw [e1, e2]

theorem getNote_between (raw m : Nat)
    (hlo : noteValue m ≤ linearFrequency raw) (hhi : linearFrequency raw < noteValue (m + 1)) :
    getNote raw
      = some (((min
          (if linearFrequency raw * linearFrequency raw > noteValue m * noteValue (m + 1)
            then m + 1 else m) 95 : Nat) : Int)) := by
  have hf := linearFrequency_lt raw
  have hn0 : m % 12 < 12 := Nat.mod_lt _ (by norm_num)
  have hm : 12 * (m / 12) + m % 12 = m := Nat.div_add_mod m 12
  rw [noteValue_succ] at hhi ⊢
  unfold noteValue at hlo ⊢
  generalize m / 12 = o0 at *
  generalize m % 12 = n0 at *
  simp only [Nat.shiftLeft_eq] at hlo hhi
  have hb0 := fmtbl_bounds n0 (by omega)
  have hb1 := fmtbl_bounds (n0 + 1) (by omega)
  -- the octave is at most 8
  have ho0 : o0 ≤ 8 := by
    by_contra hcon
    have h9 : 2 ^ 9 ≤ 2 ^ o0 := Nat.pow_le_pow_right (by norm_num) (by omega)
    have : 644 * 2 ^ 9 ≤ fmtbl.getD n0 0 * 2 ^ o0 := Nat.mul_le_mul hb0.1 h9
    omega
  have h1 : octaveLoop (linearFrequency raw : Int) 20 0 = some ((o0 + 1 : Nat) : Int) := by
    have := octaveLoop_spec (linearFrequency raw) (o0 + 1) (by omega) ?_ 20 0 rfl (by omega) ?_
    · simpa using this
    · rw [Nat.shiftLeft_eq, pow_succ]
      have : fmtbl.getD (n0 + 1) 0 * 2 ^ o0 ≤ 1288 * 2 ^ o0 := Nat.mul_le_mul_right _ hb1.2
      omega
    · intro o' _ ho'
      rw [Nat.shiftLeft_eq]
      have hp : 2 ^ o' ≤ 2 ^ o0 := Nat.pow_le_pow_right (by norm_num) (by omega)
      calc 644 * 2 ^ o' ≤ fmtbl.getD n0 0 * 2 ^ o0 := Nat.mul_le_mul hb0.1 hp
        _ ≤ linearFrequency raw := hlo
  have h2 : semitoneLoop (linearFrequency raw : Int) (o0 : Int) 12 0
      = some ((n0 + 1 : Nat) : Int) := by
    have := semitoneLoop_spec (linearFrequency raw) o0 (by omega) (n0 + 1) (by omega) ?_ 12 0 rfl
      (by omega) ?_
    · simpa using this
    · intro _
      rw [Nat.shiftLeft_eq]; exact hhi
    · intro n' _ hn'
      rw [Nat.shiftLeft_eq]
      have := fmtbl_mono n' (by omega) n0 (by omega) (by omega)
      calc fmtbl.getD n' 0 * 2 ^ o0 ≤ fmtbl.getD n0 0 * 2 ^ o0 := Nat.mul_le_mul_right _ this
        _ ≤ linearFrequency raw := hlo
  rw [getNote_of_loops raw o0 n0 hn0 (by omega) h1 h2]
  have hcomm : fmtbl.getD (n0 + 1) 0 <<< o0 * fmtbl.getD n0 0 <<< o0
      = fmtbl.getD n0 0 <<< o0 * fmtbl.getD (n0 + 1) 0 <<< o0 := Nat.mul_comm _ _
  rw [hcomm, ← hm]

theorem noteValue_lt_succ (k : Nat) : noteValue k < noteValue (k + 1) := by
  rw [noteValue_succ]
  unfold noteValue
  have hn0 : k % 12 < 12 := Nat.mod_lt _ (by norm_num)
  have hstep : ∀ a, a < 12 → fmtbl.getD a 0 < fmtbl.getD (a + 1) 0 := by decide
  simp only [Nat.shiftLeft_eq]
  exact Nat.mul_lt_mul_of_pos_right (hstep _ hn0) (Nat.two_pow_pos _)

theorem noteValue_strictMono : StrictMono noteValue :=
  strictMono_nat_of_lt_succ noteValue_lt_succ

theorem noteValue_exists (f : Nat) (h0 : 644 ≤ f) (h1 : f < 2 ^ 18) :
    ∃ m, noteValue m ≤ f ∧ f < noteValue (m + 1) := by
  by_contra h
  push_neg at h
  have key : ∀ k, noteValue k ≤ f := by
    intro k
    induction k with
    | zero => exact h0
    | succ k ih => exact h k ih
  have h108 : noteValue 108 = 329728 := by decide
  have := key 108
  omega

theorem noteValue_unique (f m m' : Nat) (h1 : noteValue m ≤ f) (h2 : f < noteValue (m + 1))
    (h3 : noteValue m' ≤ f) (h4 : f < noteValue (m' + 1)) : m' = m := by
  have hmono := noteValue_strictMono.monotone
  rcases Nat.lt_trichotomy m' m with h | h | h
  · have := hmono (show m' + 1 ≤ m by omega)
    omega
  · exact h
  · have := hmono (show m + 1 ≤ m' by omega)
    omega

/-- C15: `getNote` picks the geometrically nearest note.  For every raw
frequency whose linear value `f` is at least 644 there is exactly one note
index `m` with `F(m) <= f < F(m+1)`, where `F(k) = fmtbl[k%12] << (k/12)`, and
`getNote(raw)` is `m+1` if `f*f > F(m)*F(m+1)` and `m` otherwise, clamped to
`0..95`; so the result lies in `0..95`. -/
theorem getNote_nearest (raw : Nat) (hf : 644 ≤ linearFrequency raw) :
    ∃ m, noteValue m ≤ linearFrequency raw ∧ linearFrequency raw < noteValue (m + 1)
      ∧ (∀ m', noteValue m' ≤ linearFrequency raw → linearFrequency raw < noteValue (m' + 1) →
          m' = m)
      ∧ getNote raw
          = some (((min
              (if linearFrequency raw * linearFrequency raw > noteValue m * noteValue (m + 1)
                then m + 1 else m) 95 : Nat) : Int))
      ∧ ∃ r : Int, getNote raw = some r ∧ 0 ≤ r ∧ r ≤ 95 := by
  obtain ⟨m, h1, h2⟩ := noteValue_exists (linearFrequency raw) hf (linearFrequency_lt raw)
  refine ⟨m, h1, h2, fun m' h3 h4 => noteValue_unique _ m m' h1 h2 h3 h4,
    getNote_between raw m h1 h2, _, getNote_between raw m h1 h2, ?_, ?_⟩
  · exact Int.natCast_nonneg _
  · have : min (if linearFrequency raw * linearFrequency raw > noteValue m * noteValue (m + 1)
        then m + 1 else m) 95 ≤ 95 := Nat.min_le_right _ _
    exact_mod_cast this

/-- Witness for C15: raw value `0x22A5` (fnum 677, block 4, linear frequency
10832) lies between notes 48 and 49 and is quantised to 49. -/
theorem getNote_nearest_witness :
    (∃ m, noteValue m ≤ linearFrequency 0x22A5 ∧ linearFrequency 0x22A5 < noteValue (m + 1)
      ∧ (∀ m', noteValue m' ≤ linearFrequency 0x22A5 →
          linearFrequency 0x22A5 < noteValue (m' + 1) → m' = m)
      ∧ getNote 0x22A5
          = some (((min
              (if linearFrequency 0x22A5 * linearFrequency 0x22A5
                  > noteValue m * noteValue (m + 1)
                then m + 1 else m) 95 : Nat) : Int))
      ∧ ∃ r : Int, getNote 0x22A5 = some r ∧ 0 ≤ r ∧ r ≤ 95)
    ∧ getNote 0x22A5 = some 49 :=
  ⟨getNote_nearest 0x22A5 (by decide), by decide⟩

/-- C19: the code at a failing input.  For the raw value 0 (a channel whose
frequency was never written) the first loop of `getNote` breaks at `o = 0`, so
`--o` gives `-1` and the second loop evaluates `fmtbl[0] << -1`, a shift by a
negative count; the same happens for the raw value 643, just below the lowest
table entry. -/
theorem getNote_negative_shift :
    octaveLoop 0 20 0 = some 0
    ∧ fmShift 0 (0 - 1) = none
    ∧ getNote 0 = none
    ∧ getNote 643 = none := by
  decide

/-! ## Invariants of a run -/

theorem keyOnWrite_weird (st : State) (val : Nat) (h : (val &&& 7) &&& 3 = 3) :
    keyOnWrite st val = st := by
  simp [keyOnWrite, h]

theorem keyOnWrite_same (st : State) (val : Nat) (h3 : (val &&& 7) &&& 3 ≠ 3)
    (hs : ((st.channel (keyOnChannel val)).reg28 = 0) ↔ (val &&& 0xF0 = 0)) :
    keyOnWrite st val = setReg28 st (keyOnChannel val) (val &&& 0xF0) := by
  unfold keyOnChannel at hs ⊢
  unfold keyOnWrite
  simp only [h3, if_false]
  by_cases hm : val &&& 0xF0 = 0 <;>
    by_cases hr : (st.channel (if val &&& 7 > 3 then (val &&& 7) - 1 else val &&& 7)).reg28 = 0 <;>
    simp_all

theorem keyOnWrite_on (st : State) (val : Nat) (h3 : (val &&& 7) &&& 3 ≠ 3)
    (h0 : (st.channel (keyOnChannel val)).reg28 = 0) (hv : val &&& 0xF0 ≠ 0) :
    let ch := keyOnChannel val
    let c : InstrumentConverter := { (st.channel ch) with reg28 := val &&& 0xF0 }
    let r := getInstrumentId st.instruments c
    keyOnWrite st val
      = { st with
          channel := Function.update st.channel ch c,
          instruments := r.2,
          lastInstrument := Function.update st.lastInstrument ch r.1,
          tracks := Function.update st.tracks ch (st.tracks ch ++ [⟨st.time, 1, st.freq ch, r.1⟩]) } := by
  unfold keyOnChannel at h0 ⊢
  unfold keyOnWrite
  simp only [h3, if_false]
  simp [h0, hv, setReg28, pushNote]

theorem keyOnWrite_off (st : State) (val : Nat) (h3 : (val &&& 7) &&& 3 ≠ 3)
    (h0 : (st.channel (keyOnChannel val)).reg28 ≠ 0) (hv : val &&& 0xF0 = 0) :
    let ch := keyOnChannel val
    let c : InstrumentConverter := { (st.channel ch) with reg28 := 0 }
    keyOnWrite st val
      = { st with
          channel := Function.update st.channel ch c,
          tracks := Function.update st.tracks ch
            (st.tracks ch ++ [⟨st.time, 0, st.freq ch, st.lastInstrument ch⟩]) } := by
  unfold keyOnChannel at h0 ⊢
  unfold keyOnWrite
  simp only [h3, if_false]
  simp [h0, hv, setReg28, pushNote]

theorem sameEventView_refl (st : State) : sameEventView st st :=
  ⟨rfl, rfl, rfl, rfl, fun _ => rfl⟩

theorem sameEventView_setOp (st : State) (ch s : Nat) (f : RawFMOperator → RawFMOperator) :
    sameEventView st (setOp st ch s f) := by
  refine ⟨rfl, rfl, rfl, rfl, fun c => ?_⟩
  by_cases hc : c = ch
  · subst hc; simp [setOp]
  · simp [setOp, Function.update_noteq hc]

theorem sameEventView_dacData (st : State) (val : Nat) :
    sameEventView st (dacDataWrite st val) := by
  unfold dacDataWrite
  by_cases h : st.sampleStart = -1 <;> simp [h, sameEventView]

theorem sameEventView_dacEnable (st : State) (val : Nat) :
    sameEventView st (dacEnableWrite st val) := by
  by_cases h1 : st.dacOn = true <;> by_cases h2 : val &&& 0x80 = 0 <;>
    simp [dacEnableWrite, sameEventView, h1, h2]

theorem sameEventView_channel (st : State) (c : Nat) (x : InstrumentConverter)
    (hx : x.reg28 = (st.channel c).reg28) :
    sameEventView st { st with channel := Function.update st.channel c x } := by
  refine ⟨rfl, rfl, rfl, rfl, fun k => ?_⟩
  by_cases hk : k = c
  · subst hk; simpa using hx
  · simp [Function.update_noteq hk]

theorem ym2612write_22 (st : State) (port val : Nat) :
    sameEventView st (ym2612write st port 0x22 val) := by
  have hn : (0x22 &&& 0xF0 : Nat) = 0x20 := by decide
  simp only [ym2612write, hn, Nat.reduceLeDiff, ge_iff_le, false_and, if_false, if_true]
  refine ⟨rfl, rfl, rfl, rfl, fun c => ?_⟩
  simp only
  split_ifs <;> rfl

theorem ym2612write_27 (st : State) (port val : Nat) :
    sameEventView st (ym2612write st port 0x27 val) := by
  have hn : (0x27 &&& 0xF0 : Nat) = 0x20 := by decide
  simp only [ym2612write, hn, Nat.reduceLeDiff, ge_iff_le, false_and, if_false, if_true,
    Nat.reduceEqDiff]
  exact sameEventView_channel _ _ _ rfl

theorem ym2612write_2A (st : State) (port val : Nat) :
    ym2612write st port 0x2A val = dacDataWrite st val := by
  have hn : (0x2A &&& 0xF0 : Nat) = 0x20 := by decide
  simp [ym2612write, hn]

theorem ym2612write_2B (st : State) (port val : Nat) :
    ym2612write st port 0x2B val = dacEnableWrite st val := by
  have hn : (0x2B &&& 0xF0 : Nat) = 0x20 := by decide
  simp [ym2612write, hn]

/-- Every FM register write is a key-on write, a frequency write, or leaves the
event view alone. -/
theorem ym2612write_cases (st : State) (port reg val : Nat) :
    ym2612write st port reg val = keyOnWrite st val
    ∨ ym2612write st port reg val = freqWrite st (port * 3 + (reg &&& 3)) reg val
    ∨ sameEventView st (ym2612write st port reg val) := by
  by_cases h0 : reg ≥ 0x30 ∧ reg &&& 3 = 3
  · right; right
    simp only [ym2612write, h0, if_true]
    exact sameEventView_refl _
  by_cases h20 : reg &&& 0xF0 = 0x20
  · by_cases h22 : reg = 0x22
    · subst h22
      exact Or.inr (Or.inr (ym2612write_22 st port val))
    by_cases h27 : reg = 0x27
    · subst h27
      exact Or.inr (Or.inr (ym2612write_27 st port val))
    by_cases h28 : reg = 0x28
    · subst h28
      exact Or.inl (ym2612write_keyOn st port val)
    by_cases h2A : reg = 0x2A
    · subst h2A
      rw [ym2612write_2A]
      exact Or.inr (Or.inr (sameEventView_dacData _ _))
    by_cases h2B : reg = 0x2B
    · subst h2B
      rw [ym2612write_2B]
      exact Or.inr (Or.inr (sameEventView_dacEnable _ _))
    · right; right
      simp only [ym2612write, h0, h20, h22, h27, h28, h2A, h2B, if_false, if_true, Nat.reduceEqDiff]
      exact sameEventView_refl _
  by_cases h30 : reg &&& 0xF0 = 0x30
  · right; right
    simp only [ym2612write, h0, h20, h30, if_false, if_true, Nat.reduceEqDiff]
    exact sameEventView_setOp _ _ _ _
  by_cases h40 : reg &&& 0xF0 = 0x40
  · right; right
    simp only [ym2612write, h0, h20, h30, h40, if_false, if_true, Nat.reduceEqDiff]
    exact sameEventView_setOp _ _ _ _
  by_cases h50 : reg &&& 0xF0 = 0x50
  · right; right
    simp only [ym2612write, h0, h20, h30, h40, h50, if_false, if_true, Nat.reduceEqDiff]
    exact sameEventView_setOp _ _ _ _
  by_cases h60 : reg &&& 0xF0 = 0x60
  · right; right
    simp only [ym2612write, h0, h20, h30, h40, h50, h60, if_false, if_true, Nat.reduceEqDiff]
    exact sameEventView_setOp _ _ _ _
  by_cases h70 : reg &&& 0xF0 = 0x70
  · right; right
    simp only [ym2612write, h0, h20, h30, h40, h50, h60, h70, if_false, if_true, Nat.reduceEqDiff]
    exact sameEventView_setOp _ _ _ _
  by_cases h80 : reg &&& 0xF0 = 0x80
  · right; right
    simp only [ym2612write, h0, h20, h30, h40, h50, h60, h70, h80, if_false, if_true, Nat.reduceEqDiff]
    exact sameEventView_setOp _ _ _ _
  by_cases h90 : reg &&& 0xF0 = 0x90
  · right; right
    simp only [ym2612write, h0, h20, h30, h40, h50, h60, h70, h80, h90, if_false, if_true, Nat.reduceEqDiff]
    exact sameEventView_setOp _ _ _ _
  by_cases hA0 : reg &&& 0xF0 = 0xA0
  · right; left
    simp only [ym2612write, h0, h20, h30, h40, h50, h60, h70, h80, h90, hA0, if_false, if_true, Nat.reduceEqDiff]
  by_cases hB0 : reg &&& 0xF0 = 0xB0
  · right; right
    simp only [ym2612write, h0, h20, h30, h40, h50, h60, h70, h80, h90, hA0, hB0, if_false,
      if_true, Nat.reduceEqDiff]
    split_ifs
    · exact sameEventView_channel _ _ _ rfl
    · exact sameEventView_channel _ _ _ rfl
    · exact sameEventView_refl _
  · right; right
    simp only [ym2612write, h0, h20, h30, h40, h50, h60, h70, h80, h90, hA0, hB0, if_false,
      if_true, Nat.reduceEqDiff]
    exact sameEventView_refl _

theorem glideView_updateCH3 (st : State) (ch : Nat) (mid : State) (h : glideView st ch mid) :
    glideView st ch (updateCH3 mid) := by
  obtain ⟨h1, h2, h3, h4, h5⟩ := h
  refine ⟨h1, h2, h3, fun c => ?_, h5⟩
  rw [← h4 c]
  by_cases hc : c = 2
  · subst hc; simp [updateCH3]
  · simp [updateCH3, Function.update_noteq hc]

theorem freqWrite_view (st : State) (ch reg val : Nat) :
    glideView st ch (freqWrite st ch reg val) := by
  unfold freqWrite
  simp only
  apply glideView_updateCH3
  by_cases h0 : reg &&& 0xC = 0
  · by_cases hk : (st.channel ch).reg28 = 0
    · simp only [h0, if_true, hk, ne_eq, not_true_eq_false, if_false]
      exact ⟨rfl, rfl, rfl, fun _ => rfl, Or.inl rfl⟩
    · simp only [h0, if_true, hk, ne_eq, not_false_eq_true]
      exact ⟨rfl, rfl, rfl, fun _ => rfl, Or.inr ⟨hk, _, rfl⟩⟩
  · simp only [h0, if_false]
    split_ifs <;> exact ⟨rfl, rfl, rfl, fun _ => rfl, Or.inl rfl⟩

/-- Effect of a PSG write on the event view: everything FM is kept and at most
one note, stamped with the current time, is appended to a PSG timeline
(index 6 or above). -/
theorem sn76489write_view (st : State) (value : Nat) :
    (sn76489write st value).time = st.time
    ∧ (sn76489write st value).instruments = st.instruments
    ∧ (sn76489write st value).lastInstrument = st.lastInstrument
    ∧ (sn76489write st value).channel = st.channel
    ∧ ((sn76489write st value).tracks = st.tracks
        ∨ ∃ c n, (sn76489write st value).tracks
              = Function.update st.tracks (c + 6) (st.tracks (c + 6) ++ [n])
            ∧ n.time = st.time) := by
  unfold sn76489write
  simp only
  split_ifs <;>
    first
    | exact ⟨rfl, rfl, rfl, rfl, Or.inl rfl⟩
    | exact ⟨rfl, rfl, rfl, rfl, Or.inr ⟨_, _, rfl, rfl⟩⟩

theorem appendsAtNow_of_update (st st' : State) (ht : st'.time = st.time)
    (h : st'.tracks = st.tracks
      ∨ ∃ c n, st'.tracks = Function.update st.tracks c (st.tracks c ++ [n]) ∧ n.time = st.time) :
    appendsAtNow st st' := by
  refine ⟨ht, fun k => ?_⟩
  rcases h with h | ⟨c, n, h, hn⟩
  · left; rw [h]
  · by_cases hk : k = c
    · subst hk
      right
      exact ⟨n, by rw [h]; simp, hn⟩
    · left
      rw [h]; simp [Function.update_noteq hk]

theorem timelineInv_appends (st st' : State) (hinv : timelineInv st) (h : appendsAtNow st st') :
    timelineInv st' := by
  intro k
  obtain ⟨hp, hb⟩ := hinv k
  obtain ⟨ht, hk⟩ := h
  rcases hk k with e | ⟨n, e, hn⟩
  · rw [e, ht]; exact ⟨hp, hb⟩
  · rw [e, ht]
    refine ⟨?_, ?_⟩
    · rw [List.pairwise_append]
      refine ⟨hp, List.pairwise_singleton _ _, ?_⟩
      intro a ha b hb'
      rw [List.mem_singleton] at hb'
      subst hb'
      rw [hn]; exact hb a ha
    · intro a ha
      rw [List.mem_append, List.mem_singleton] at ha
      rcases ha with ha | ha
      · exact hb a ha
      · subst ha; rw [hn]

theorem timelineInv_later (mid st' : State) (hinv : timelineInv mid)
    (ht : st'.tracks = mid.tracks) (hle : mid.time ≤ st'.time) : timelineInv st' := by
  intro k
  obtain ⟨hp, hb⟩ := hinv k
  rw [ht]
  exact ⟨hp, fun n hn => le_trans (hb n hn) hle⟩

theorem keyOnWrite_appends (st : State) (val : Nat) : appendsAtNow st (keyOnWrite st val) := by
  by_cases h3 : (val &&& 7) &&& 3 = 3
  · rw [keyOnWrite_weird st val h3]
    exact ⟨rfl, fun _ => Or.inl rfl⟩
  by_cases hs : ((st.channel (keyOnChannel val)).reg28 = 0) ↔ (val &&& 0xF0 = 0)
  · rw [keyOnWrite_same st val h3 hs]
    exact ⟨rfl, fun _ => Or.inl rfl⟩
  by_cases h0 : (st.channel (keyOnChannel val)).reg28 = 0
  · have hv : val &&& 0xF0 ≠ 0 := fun hv => hs ⟨fun _ => hv, fun _ => h0⟩
    rw [keyOnWrite_on st val h3 h0 hv]
    exact appendsAtNow_of_update _ _ rfl (Or.inr ⟨_, _, rfl, rfl⟩)
  · have hv : val &&& 0xF0 = 0 := by
      by_contra hv
      exact hs ⟨fun h => absurd h h0, fun h => absurd h hv⟩
    rw [keyOnWrite_off st val h3 h0 hv]
    exact appendsAtNow_of_update _ _ rfl (Or.inr ⟨_, _, rfl, rfl⟩)

theorem ym2612write_appends (st : State) (port reg val : Nat) :
    appendsAtNow st (ym2612write st port reg val) := by
  rcases ym2612write_cases st port reg val with h | h | h
  · rw [h]; exact keyOnWrite_appends st val
  · rw [h]
    obtain ⟨h1, -, -, -, h5⟩ := freqWrite_view st (port * 3 + (reg &&& 3)) reg val
    refine appendsAtNow_of_update _ _ h1 ?_
    rcases h5 with h5 | ⟨-, f, h5⟩
    · exact Or.inl h5
    · exact Or.inr ⟨_, _, h5, rfl⟩
  · obtain ⟨h1, h2, -⟩ := h
    exact ⟨h1, fun k => Or.inl (by rw [h2])⟩

theorem sn76489write_appends (st : State) (value : Nat) :
    appendsAtNow st (sn76489write st value) := by
  obtain ⟨h1, -, -, -, h5⟩ := sn76489write_view st value
  refine appendsAtNow_of_update _ _ h1 ?_
  rcases h5 with h5 | ⟨c, n, h5, hn⟩
  · exact Or.inl h5
  · exact Or.inr ⟨_, _, h5, hn⟩

theorem process_cases (p : vgmParser) (st : State) (cmd : Nat) (args : List Nat) :
    ∃ mid, commandStep st mid (process p st cmd args).2 := by
  by_cases h4F : cmd = 0x4F
  · subst h4F
    simp only [process, if_true]
    exact ⟨st, Or.inl rfl, rfl, rfl, rfl, rfl, le_refl _⟩
  by_cases h50 : cmd = 0x50
  · subst h50
    simp only [process, if_true, if_false, Nat.reduceEqDiff]
    exact ⟨_, Or.inr (Or.inl ⟨_, rfl⟩), rfl, rfl, rfl, rfl, le_refl _⟩
  by_cases h52 : cmd = 0x52 ∨ cmd = 0x53
  · simp only [process, h4F, h50, h52, if_true, if_false]
    exact ⟨_, Or.inr (Or.inr ⟨_, _, _, rfl⟩), rfl, rfl, rfl, rfl, le_refl _⟩
  by_cases h61 : cmd = 0x61
  · subst h61
    simp only [process, if_true, if_false, Nat.reduceEqDiff, or_self]
    exact ⟨st, Or.inl rfl, rfl, rfl, rfl, rfl, by simp⟩
  by_cases h62 : cmd = 0x62 ∨ cmd = 0x63
  · simp only [process, h4F, h50, h52, h61, h62, if_true, if_false]
    exact ⟨st, Or.inl rfl, rfl, rfl, rfl, rfl, by simp⟩
  by_cases h64 : cmd = 0x64
  · subst h64
    simp only [process, if_true, if_false, Nat.reduceEqDiff, or_self]
    split_ifs <;> exact ⟨st, Or.inl rfl, rfl, rfl, rfl, rfl, le_refl _⟩
  by_cases h66 : cmd = 0x66
  · subst h66
    simp only [process, if_true, if_false, Nat.reduceEqDiff, or_self]
    exact ⟨st, Or.inl rfl, rfl, rfl, rfl, rfl, le_refl _⟩
  by_cases hE0 : cmd = 0xE0
  · subst hE0
    simp only [process, if_true, if_false, Nat.reduceEqDiff, or_self]
    exact ⟨st, Or.inl rfl, rfl, rfl, rfl, rfl, le_refl _⟩
  by_cases h70 : cmd &&& 0xF0 = 0x70
  · simp only [process, h4F, h50, h52, h61, h62, h64, h66, hE0, h70, if_true, if_false]
    exact ⟨st, Or.inl rfl, rfl, rfl, rfl, rfl, by simp; omega⟩
  by_cases h80 : cmd &&& 0xF0 = 0x80
  · simp only [process, h4F, h50, h52, h61, h62, h64, h66, hE0, h70, h80, if_true, if_false,
      Nat.reduceEqDiff]
    cases hb : findPcmBlock p p.getDataBlockCount 0 none with
    | none => exact ⟨st, Or.inl rfl, rfl, rfl, rfl, rfl, by simp⟩
    | some b => exact ⟨_, Or.inr (Or.inr ⟨_, _, _, rfl⟩), rfl, rfl, rfl, rfl, by simp⟩
  · simp only [process, h4F, h50, h52, h61, h62, h64, h66, hE0, h70, h80, if_false]
    exact ⟨st, Or.inl rfl, rfl, rfl, rfl, rfl, le_refl _⟩

theorem commandStep_appends (st mid st' : State) (h : commandStep st mid st') :
    appendsAtNow st mid := by
  rcases h.1 with h | ⟨v, h⟩ | ⟨port, reg, val, h⟩
  · rw [h]; exact ⟨rfl, fun _ => Or.inl rfl⟩
  · rw [h]; exact sn76489write_appends st v
  · rw [h]; exact ym2612write_appends st port reg val

theorem timelineInv_process (p : vgmParser) (st : State) (cmd : Nat) (args : List Nat)
    (hinv : timelineInv st) : timelineInv (process p st cmd args).2 := by
  obtain ⟨mid, h⟩ := process_cases p st cmd args
  have hmid := timelineInv_appends st mid hinv (commandStep_appends st mid _ h)
  exact timelineInv_later mid _ hmid h.2.1 h.2.2.2.2.2

theorem process_time_le (p : vgmParser) (st : State) (cmd : Nat) (args : List Nat) :
    st.time ≤ (process p st cmd args).2.time := by
  obtain ⟨mid, h⟩ := process_cases p st cmd args
  have := (commandStep_appends st mid _ h).1
  have := h.2.2.2.2.2
  omega

theorem timelineInv_run (p : vgmParser) :
    ∀ (cmds : List (Nat × List Nat)) (st : State), timelineInv st → timelineInv (run p st cmds) := by
  intro cmds
  induction cmds with
  | nil => intro st h; exact h
  | cons c cs ih =>
    intro st h
    rw [run_cons]
    exact ih _ (timelineInv_process p st c.1 c.2 h)

theorem timelineInv_initial : timelineInv initialState := by
  intro k
  simp [initialState]

/-- C12: timestamps are monotone.  For every command sequence fed to `process`
from the initial state, the timestamps of the note-events of every timeline are
non-decreasing in insertion order and none is later than the time accumulator;
no command ever decreases the time accumulator. -/
theorem timestamps_monotone (p : vgmParser) (cmds : List (Nat × List Nat)) (k : Nat) :
    ((run p initialState cmds).tracks k).Pairwise (fun a b => a.time ≤ b.time)
    ∧ (∀ n ∈ (run p initialState cmds).tracks k, n.time ≤ (run p initialState cmds).time)
    ∧ ∀ cmd args, (run p initialState cmds).time
        ≤ (process p (run p initialState cmds) cmd args).2.time :=
  ⟨(timelineInv_run p cmds initialState timelineInv_initial k).1,
    (timelineInv_run p cmds initialState timelineInv_initial k).2,
    fun cmd args => process_time_le p _ cmd args⟩

theorem patchInv_sameEventView (st st' : State) (hinv : patchInv st) (h : sameEventView st st') :
    patchInv st' := by
  obtain ⟨-, h2, h3, h4, h5⟩ := h
  obtain ⟨i1, i2⟩ := hinv
  refine ⟨fun ch hch => ?_, fun k hk n hn => ?_⟩
  · rw [h4, h3]; exact i1 ch (by rw [← h5 ch]; exact hch)
  · rw [h3]; exact i2 k hk n (by rw [← h2]; exact hn)

theorem patchInv_glideView (st st' : State) (ch : Nat) (hinv : patchInv st)
    (h : glideView st ch st') : patchInv st' := by
  obtain ⟨-, h2, h3, h4, h5⟩ := h
  obtain ⟨i1, i2⟩ := hinv
  refine ⟨fun c hc => ?_, fun k hk n hn => ?_⟩
  · rw [h3, h2]; exact i1 c (by rw [← h4 c]; exact hc)
  · rw [h2]
    rcases h5 with h5 | ⟨hon, f, h5⟩
    · exact i2 k hk n (by rw [← h5]; exact hn)
    · rw [h5] at hn
      by_cases hkc : k = ch
      · subst hkc
        rw [Function.update_same, List.mem_append, List.mem_singleton] at hn
        rcases hn with hn | hn
        · exact i2 k hk n hn
        · subst hn; exact i1 k hon
      · rw [Function.update_noteq hkc] at hn
        exact i2 k hk n hn

theorem patchInv_keyOnWrite (st : State) (val : Nat) (hinv : patchInv st) :
    patchInv (keyOnWrite st val) := by
  obtain ⟨i1, i2⟩ := hinv
  by_cases h3 : (val &&& 7) &&& 3 = 3
  · rw [keyOnWrite_weird st val h3]; exact ⟨i1, i2⟩
  by_cases hs : ((st.channel (keyOnChannel val)).reg28 = 0) ↔ (val &&& 0xF0 = 0)
  · rw [keyOnWrite_same st val h3 hs]
    refine ⟨fun c hc => ?_, fun k hk n hn => i2 k hk n hn⟩
    by_cases hcc : c = keyOnChannel val
    · subst hcc
      simp only [setReg28, Function.update_same] at hc
      exact i1 _ (fun h0 => hc (hs.mp h0))
    · simp only [setReg28, Function.update_noteq hcc] at hc
      exact i1 c hc
  by_cases h0 : (st.channel (keyOnChannel val)).reg28 = 0
  · have hv : val &&& 0xF0 ≠ 0 := fun hv => hs ⟨fun _ => hv, fun _ => h0⟩
    rw [keyOnWrite_on st val h3 h0 hv]
    simp only
    obtain ⟨g1, g2⟩ := getInstrumentId_index_lt st.instruments
      { (st.channel (keyOnChannel val)) with reg28 := val &&& 0xF0 }
    refine ⟨fun c hc => ?_, fun k hk n hn => ?_⟩
    · by_cases hcc : c = keyOnChannel val
      · subst hcc
        simp only [Function.update_same]
        exact g1
      · simp only [Function.update_noteq hcc] at hc ⊢
        exact lt_of_lt_of_le (i1 c hc) g2
    · by_cases hkc : k = keyOnChannel val
      · subst hkc
        simp only [Function.update_same, List.mem_append, List.mem_singleton] at hn
        rcases hn with hn | hn
        · exact lt_of_lt_of_le (i2 _ hk n hn) g2
        · subst hn; exact g1
      · simp only [Function.update_noteq hkc] at hn
        exact lt_of_lt_of_le (i2 k hk n hn) g2
  · have hv : val &&& 0xF0 = 0 := by
      by_contra hv
      exact hs ⟨fun h => absurd h h0, fun h => absurd h hv⟩
    rw [keyOnWrite_off st val h3 h0 hv]
    simp only
    refine ⟨fun c hc => ?_, fun k hk n hn => ?_⟩
    · by_cases hcc : c = keyOnChannel val
      · subst hcc
        simp only [Function.update_same] at hc
        exact absurd rfl hc
      · simp only [Function.update_noteq hcc] at hc
        exact i1 c hc
    · by_cases hkc : k = keyOnChannel val
      · subst hkc
        simp only [Function.update_same, List.mem_append, List.mem_singleton] at hn
        rcases hn with hn | hn
        · exact i2 _ hk n hn
        · subst hn; exact i1 _ h0
      · simp only [Function.update_noteq hkc] at hn
        exact i2 k hk n hn

theorem patchInv_ym2612write (st : State) (port reg val : Nat) (hinv : patchInv st) :
    patchInv (ym2612write st port reg val) := by
  rcases ym2612write_cases st port reg val with h | h | h
  · rw [h]; exact patchInv_keyOnWrite st val hinv
  · rw [h]; exact patchInv_glideView st _ _ hinv (freqWrite_view st _ reg val)
  · exact patchInv_sameEventView st _ hinv h

theorem patchInv_sn76489write (st : State) (value : Nat) (hinv : patchInv st) :
    patchInv (sn76489write st value) := by
  obtain ⟨-, h2, h3, h4, h5⟩ := sn76489write_view st value
  obtain ⟨i1, i2⟩ := hinv
  refine ⟨fun c hc => ?_, fun k hk n hn => ?_⟩
  · rw [h3, h2]; exact i1 c (by rw [← h4]; exact hc)
  · rw [h2]
    rcases h5 with h5 | ⟨c, m, h5, -⟩
    · exact i2 k hk n (by rw [← h5]; exact hn)
    · rw [h5, Function.update_noteq (by omega)] at hn
      exact i2 k hk n hn

theorem patchInv_process (p : vgmParser) (st : State) (cmd : Nat) (args : List Nat)
    (hinv : patchInv st) : patchInv (process p st cmd args).2 := by
  obtain ⟨mid, hm, h2, h3, h4, h5, -⟩ := process_cases p st cmd args
  have hmid : patchInv mid := by
    rcases hm with h | ⟨v, h⟩ | ⟨port, reg, val, h⟩
    · rw [h]; exact hinv
    · rw [h]; exact patchInv_sn76489write st v hinv
    · rw [h]; exact patchInv_ym2612write st port reg val hinv
  obtain ⟨i1, i2⟩ := hmid
  refine ⟨fun c hc => ?_, fun k hk n hn => ?_⟩
  · rw [h4, h3]; exact i1 c (by rw [← h5]; exact hc)
  · rw [h3]; exact i2 k hk n (by rw [← h2]; exact hn)

theorem patchInv_run (p : vgmParser) :
    ∀ (cmds : List (Nat × List Nat)) (st : State), patchInv st → patchInv (run p st cmds) := by
  intro cmds
  induction cmds with
  | nil => intro st h; exact h
  | cons c cs ih =>
    intro st h
    rw [run_cons]
    exact ih _ (patchInv_process p st c.1 c.2 h)

theorem patchInv_initial : patchInv initialState := by
  refine ⟨fun ch hch => ?_, fun k _ n hn => ?_⟩
  · exact absurd rfl hch
  · simp [initialState] at hn

/-- C20: every FM note-event references an existing instrument.  After every
command sequence fed to `process` from the initial state, each note-event of
the six FM timelines `tracks[0..5]` carries a patch index below
`instruments.size()`, and every channel whose stored key-on mask is nonzero has
a `lastInstrument` below `instruments.size()`. -/
theorem fm_events_reference_instruments (p : vgmParser) (cmds : List (Nat × List Nat)) :
    (∀ k, k < 6 → ∀ n ∈ (run p initialState cmds).tracks k,
        n.patch < (run p initialState cmds).instruments.length)
    ∧ ∀ ch, ((run p initialState cmds).channel ch).reg28 ≠ 0 →
        (run p initialState cmds).lastInstrument ch
          < (run p initialState cmds).instruments.length :=
  ⟨(patchInv_run p cmds initialState patchInv_initial).2,
    (patchInv_run p cmds initialState patchInv_initial).1⟩

end VgmJuice
